import Mathlib

/-!
# Verification of the medfm-challenge orchestration scripts

A shallow embedding, in Lean 4, of the Python orchestration scripts of the
`neurips_medfm_challenge_2023` repository:

* `ensemble/infer_missing_predictions.py` — scans `work_dirs` for completed
  training runs that are still missing a prediction CSV, generates inference
  commands, and submits them to a Slurm cluster;
* `utility/align_submission.py` — reorders the rows of prediction CSV files so
  that their `img_id` order matches the corresponding `{task}_val.csv`;
* `ensemble/eval_2_val.py` — parses an evaluation report and copies validation
  prediction files.

Python strings are modelled as Lean `String`s, with the Python string
operations (`split`, `in`, `endswith`, `strip`, …) defined over the underlying
character lists so that their behaviour is fully transparent.  The filesystem
is abstracted by a record of functions (`FS`); `os.listdir` returning `none`
models an `OSError`.  Fallible Python code is embedded in `Except PyErr` (or
returns the effects performed before the exception alongside an
`Option PyErr`).  Third-party library calls (tensorboard's `EventAccumulator`,
pandas' `read_csv`/`merge`, `datetime.strptime`) are modelled from their
documented behaviour at the granularity the scripts use them.
-/

/-- Python exception kinds that the embedded scripts can raise. -/
inductive PyErr where
  | osError
  | typeError
  | valueError
  | indexError
  | keyError
  deriving DecidableEq, Repr

/-! ## Python string primitives, over character lists -/

/-- `splitChar c l` splits the character list `l` at every occurrence of the
separator `c`, keeping empty pieces — the semantics of Python's
`str.split(sep)` for a one-character separator. -/
def splitChar (c : Char) : List Char → List (List Char)
  | [] => [[]]
  | x :: xs =>
    let r := splitChar c xs
    if x = c then [] :: r
    else (x :: r.headD []) :: r.tail

/-- The result of `splitChar` is never empty. -/
theorem splitChar_ne_nil (c : Char) (l : List Char) : splitChar c l ≠ [] := by
  cases l with
  | nil => simp [splitChar]
  | cons x xs =>
    simp only [splitChar]
    split <;> simp

/-- `splitChar` distributes over an occurrence of the separator. -/
theorem splitChar_append (c : Char) (a b : List Char) :
    splitChar c (a ++ c :: b) = splitChar c a ++ splitChar c b := by
  induction a with
  | nil => simp [splitChar]
  | cons x xs ih =>
    by_cases hx : x = c
    · subst hx
      simp [splitChar, ih]
    · obtain ⟨y, ys, hy⟩ := List.exists_cons_of_ne_nil (splitChar_ne_nil c xs)
      simp only [List.cons_append, splitChar, if_neg hx, List.append_eq, ih, hy,
        List.headD_cons, List.tail_cons]

/-- Python `s.split(c)` for a single-character separator `c`. -/
def pySplit (c : Char) (s : String) : List String :=
  (splitChar c s.data).map String.mk

/-- Python `pat in s` (substring containment). -/
def pyContains (s pat : String) : Bool :=
  s.data.tails.any (fun t => pat.data.isPrefixOf t)

/-- Python `s.endswith(suffix)`. -/
def pyEndsWith (s suffix : String) : Bool :=
  suffix.data.isSuffixOf s.data

/-- Python `s.startswith(prefix)`. -/
def pyStartsWith (s p : String) : Bool :=
  p.data.isPrefixOf s.data

/-- Numeric value of a digit run (most significant first). -/
def digitsToNat (l : List Char) : Nat :=
  l.foldl (fun n c => 10 * n + (c.toNat - '0'.toNat)) 0

/-- Python `int(s)` restricted to non-empty all-digit strings, the only shape
the scripts feed it; other shapes (which would raise `ValueError`) give
`none`. -/
def pyInt? (s : String) : Option Nat :=
  if s.data ≠ [] ∧ s.data.all Char.isDigit then some (digitsToNat s.data) else none

/-- `os.path.join(a, b)` (POSIX): an absolute second component replaces the
first; otherwise the components are joined with `/` (inserting one only when
`a` does not already end with `/`). -/
def pathJoin (a b : String) : String :=
  if pyStartsWith b "/" then b
  else if a = "" then b
  else if pyEndsWith a "/" then a ++ b
  else a ++ "/" ++ b

/-! ## `ensemble/infer_missing_predictions.py` -/

/-- The filesystem as seen by `infer_missing_predictions.py`.  `listdir`
returning `none` models `os.listdir` raising an `OSError`; `scalarTags` gives
the scalar tags that tensorboard's `EventAccumulator` reports for the event
file at a path (`is_metric_in_event_file` only inspects those tags). -/
structure FS where
  listdir : String → Option (List String)
  isDir : String → Bool
  pathExists : String → Bool
  scalarTags : String → List String

/-- Scan for the first position where `exp` is immediately followed by at
least one digit and read the maximal digit run there — the behaviour of
`re.search(r'exp(\d+)', ·)` with `int` applied to the captured group. -/
def extract_exp_scan : List Char → Nat
  | 'e' :: 'x' :: 'p' :: rest =>
    let digits := rest.takeWhile Char.isDigit
    if digits.isEmpty then extract_exp_scan ('x' :: 'p' :: rest) else digitsToNat digits
  | _ :: rest => extract_exp_scan rest
  | [] => 0

/-- `extract_exp_number(string)`: `EXP_PATTERN.search(string)` followed by
`int(match.group(1))`, and 0 when there is no match. -/
def extract_exp_number (s : String) : Nat :=
  extract_exp_scan s.data

/-- `work_dir_path = os.path.join("/scratch", "medfm", "medfm-challenge", "work_dirs")`. -/
def work_dir_path : String :=
  pathJoin (pathJoin (pathJoin "/scratch" "medfm") "medfm-challenge") "work_dirs"

/-- `tasks = ["colon", "endo", "chest"]`. -/
def tasks : List String := ["colon", "endo", "chest"]

/-- `shots = ["1", "5", "10"]`. -/
def shots : List String := ["1", "5", "10"]

/-- `batch_size = 4`. -/
def batch_size : Nat := 4

/-- The `metric_tags` dictionary. -/
def metric_tags : List (String × String) :=
  [("auc", "AUC/AUC_multiclass"), ("aucl", "AUC/AUC_multilabe"),
   ("map", "multi-label/mAP"), ("agg", "Aggregate")]

/-- `metric_tags['map']`. -/
def metric_tags_map : String := ((metric_tags.lookup "map").getD "")

/-- `get_file_from_directory(directory, extension, contains_string)`: the first
`os.listdir` entry ending in `extension` and (when given) containing
`contains_string`, joined to the directory; `none` when no entry matches.
An unlistable directory propagates the `OSError`. -/
def get_file_from_directory (fs : FS) (directory extension : String)
    (contains_string : Option String) : Except PyErr (Option String) :=
  match fs.listdir directory with
  | none => .error .osError
  | some files =>
    .ok ((files.find? (fun file =>
        pyEndsWith file extension &&
          (match contains_string with
           | none => true
           | some pat => pyContains file pat))).map (pathJoin directory))

/-- The `for entry in os.listdir(model_dir)` loop of
`get_event_file_from_model_dir`: the first entry that is a directory has its
`vis_data` folder listed, and the first listing entry is returned; any
exception there (unlistable `vis_data`, or `[0]` on an empty listing) is
swallowed into `None` by the surrounding `try`. -/
def event_file_loop (fs : FS) (model_dir : String) : List String → Option String
  | [] => none
  | entry :: rest =>
    let full_path := pathJoin model_dir entry
    if fs.isDir full_path then
      let vis_path := pathJoin full_path "vis_data"
      match fs.listdir vis_path with
      | none => none
      | some [] => none
      | some (event_file :: _) => some (pathJoin vis_path event_file)
    else event_file_loop fs model_dir rest

/-- `get_event_file_from_model_dir(model_dir)` (all exceptions give `None`). -/
def get_event_file_from_model_dir (fs : FS) (model_dir : String) : Option String :=
  match fs.listdir model_dir with
  | none => none
  | some entries => event_file_loop fs model_dir entries

/-- `is_metric_in_event_file(file_path, metric)`: whether `metric` is among the
scalar tags of the event file. -/
def is_metric_in_event_file (fs : FS) (file_path metric : String) : Bool :=
  (fs.scalarTags file_path).contains metric

/-- The prediction file name `f"{task}_{shot}-shot_submission.csv"`. -/
def submission_csv_name (task shot : String) : String :=
  task ++ "_" ++ shot ++ "-shot_submission.csv"

/-- `contains_csv_file(task, shot, model_dir)`:
`os.path.exists(os.path.join(model_dir, expected_filename))` (`os.path.exists`
itself does not raise, so the function's `try` never fires). -/
def contains_csv_file (fs : FS) (task shot model_dir : String) : Bool :=
  fs.pathExists (pathJoin model_dir (submission_csv_name task shot))

/-- The `for model_dir in setting_model_dirs` loop of
`get_model_dirs_without_prediction`: a directory is kept when it has a best
checkpoint, an event file carrying the mAP tag, and no prediction CSV yet.
An `OSError` from `get_file_from_directory` (the only uncaught exception in
the body) propagates. -/
def scan_model_dirs (fs : FS) (task shot setting_directory : String) :
    List String → Except PyErr (List String)
  | [] => .ok []
  | model_dir :: rest =>
    let abs_model_dir := pathJoin setting_directory model_dir
    match get_file_from_directory fs abs_model_dir ".pth" (some "best") with
    | .error err => .error err
    | .ok none => scan_model_dirs fs task shot setting_directory rest
    | .ok (some _) =>
      match get_event_file_from_model_dir fs abs_model_dir with
      | none => scan_model_dirs fs task shot setting_directory rest
      | some event_file =>
        if is_metric_in_event_file fs event_file metric_tags_map = false then
          scan_model_dirs fs task shot setting_directory rest
        else if contains_csv_file fs task shot abs_model_dir then
          scan_model_dirs fs task shot setting_directory rest
        else
          match scan_model_dirs fs task shot setting_directory rest with
          | .error err => .error err
          | .ok r => .ok (model_dir :: r)

/-- The setting directory `os.path.join(work_dir_path, task, f"{shot}-shot")`. -/
def setting_directory (task shot : String) : String :=
  pathJoin (pathJoin work_dir_path task) (shot ++ "-shot")

/-- `get_model_dirs_without_prediction(task, shot)`: `.ok none` models the
`return None` taken when the setting directory cannot be listed; `.error`
models an exception escaping the loop body. -/
def get_model_dirs_without_prediction (fs : FS) (task shot : String) :
    Except PyErr (Option (List String)) :=
  match fs.listdir (setting_directory task shot) with
  | none => .ok none
  | some setting_model_dirs =>
    (scan_model_dirs fs task shot (setting_directory task shot) setting_model_dirs).map some

/-! ### `run_commands_on_cluster` -/

/-- The keys of the `task_gpu_map` dictionary (in insertion order). -/
def task_gpu_keys : List String := ["colon", "chest", "endo"]

/-- The values of the `task_gpu_map` dictionary. -/
def task_gpu_map (task : String) : String :=
  if task = "colon" then "rtx4090"
  else if task = "chest" then "rtx3090"
  else if task = "endo" then "rtx3090"
  else ""

/-- The `task_counter` dictionary. -/
structure TaskCounter where
  colon : Nat
  chest : Nat
  endo : Nat
  deriving DecidableEq, Repr

/-- `task_counter[task]` (the loop only reads it for keys of `task_gpu_map`). -/
def TaskCounter.get (tc : TaskCounter) (task : String) : Nat :=
  if task = "colon" then tc.colon
  else if task = "chest" then tc.chest
  else tc.endo

/-- `task_counter[task] += 1`. -/
def TaskCounter.inc (tc : TaskCounter) (task : String) : TaskCounter :=
  if task = "colon" then { tc with colon := tc.colon + 1 }
  else if task = "chest" then { tc with chest := tc.chest + 1 }
  else { tc with endo := tc.endo + 1 }

/-- `cfg_path.rsplit("/", 1)[0]`: everything before the last `/` (the whole
string when there is no `/`). -/
def pyRsplitHead (c : Char) (s : String) : String :=
  let parts := pySplit c s
  if parts.length ≤ 1 then s else String.intercalate (String.mk [c]) parts.dropLast

/-- One `sbatch` submission performed by `run_commands_on_cluster`: the
`slurm_cmd` string passed to `subprocess.run`, together with the task the
submitted command belongs to (`command.split("/")[6]`, recorded here so that
per-task counting can be stated). -/
structure Submission where
  task : String
  slurm : String
  deriving DecidableEq, Repr

/-- The `for command in commands` loop of `run_commands_on_cluster`,
parametrised by the value table `gpuOf` of `task_gpu_map` (the keys are fixed
by the membership test).  Returns the submissions performed in order, and the
exception (if any) that terminated the loop; submissions made before the
exception are kept, as their `subprocess.run` calls already happened. -/
def run_commands_loop (gpuOf : String → String) (num_commands : Nat)
    (tc : TaskCounter) : List String → List Submission × Option PyErr
  | [] => ([], none)
  | command :: rest =>
    match (pySplit '/' command).get? 6 with
    | none => ([], some .indexError)
    | some task =>
      if task_gpu_keys.contains task = false then ([], some .valueError)
      else if num_commands ≤ tc.get task then
        run_commands_loop gpuOf num_commands tc rest
      else
        let gpu := gpuOf task
        match (pySplit ' ' command).get? 2 with
        | none => ([], some .indexError)
        | some cfg_path =>
          match (pySplit '/' cfg_path).get? 6, (pySplit '/' cfg_path).get? 7 with
          | some shot, some exp_part =>
            let exp := extract_exp_number exp_part
            let log_dir := pyRsplitHead '/' cfg_path
            let log_file_name := task ++ "_" ++ shot ++ "_exp" ++ toString exp ++ "_slurm-%j"
            let slurm_cmd := "sbatch -p ls6 --nodelist=gpuc --wrap=\"" ++ command
              ++ "\" -o \"" ++ log_dir ++ "/" ++ log_file_name ++ ".out\""
            let rec_result := run_commands_loop gpuOf num_commands (tc.inc task) rest
            ({ task := task, slurm := slurm_cmd } :: rec_result.1, rec_result.2)
          | _, _ => ([], some .indexError)

/-- `run_commands_on_cluster(commands, num_commands)` (the `delay_seconds`
sleep and the log-directory `makedirs` have no bearing on the submitted
commands). -/
def run_commands_on_cluster (commands : List String) (num_commands : Nat) :
    List Submission × Option PyErr :=
  run_commands_loop task_gpu_map num_commands ⟨0, 0, 0⟩ commands

/-! ### Report printing and result aggregation in `__main__` -/

/-- `sort_key(entry)`: task, shot and experiment number extracted from a
report entry (a model path).  Python's `int` would raise on a malformed shot
component; every entry this is applied to has the fixed shape
`{work_dir_path}/{task}/{shot}-shot/{name}`, so the `getD`/`pyInt?` defaults
are never exercised there. -/
def sort_key (entry : String) : String × Nat × Nat :=
  let parts := pySplit '/' entry
  (parts.getD 5 "",
   (pyInt? (((pySplit '-' (parts.getD 6 ""))).headD "")).getD 0,
   extract_exp_number (parts.getLastD ""))

/-- Comparison of two `sort_key` values: lexicographic tuple comparison, as
Python compares `(str, int, int)` tuples. -/
def sort_key_le (a b : String × Nat × Nat) : Bool :=
  decide (a.1 < b.1) ||
    (decide (a.1 = b.1) &&
      (decide (a.2.1 < b.2.1) ||
        (decide (a.2.1 = b.2.1) && decide (a.2.2 ≤ b.2.2))))

/-- The comparison `sorted(..., key=sort_key)` sorts report entries by. -/
def entry_le (a b : String) : Bool :=
  sort_key_le (sort_key a) (sort_key b)

/-- One value of the `model_infos` dictionary built in `__main__`. -/
structure ModelInfo where
  task : String
  shot : String
  exp_num : Nat
  name : String
  path : String
  deriving DecidableEq, Repr

/-- `os.path.join(work_dir_path, task, f"{shot}-shot", model_name)`. -/
def model_path_of (task shot model_name : String) : String :=
  pathJoin (pathJoin (pathJoin work_dir_path task) (shot ++ "-shot")) model_name

/-- The `model_infos[model_name]` entry built for a scanned model. -/
def model_info_of (task shot model_name : String) : ModelInfo :=
  { task := task, shot := shot, exp_num := extract_exp_number model_name,
    name := model_name, path := model_path_of task shot model_name }

/-- The `model_infos` dictionary: an association list in insertion order. -/
abbrev ModelDict : Type := List (String × ModelInfo)

/-- `model_infos[model_name] = value`: a Python dict assignment updates the
value in place when the key exists (keeping its position) and appends
otherwise. -/
def dict_insert (d : ModelDict) (key : String) (value : ModelInfo) : ModelDict :=
  if (List.any d (fun p => p.1 = key)) then
    List.map (fun p => if p.1 = key then (key, value) else p) d
  else List.append d [(key, value)]

/-- The horizontal rule printed around the report. -/
def report_rule : String :=
  "---------------------------------------------------------------------------------------------------------------"

/-- `print_report(model_infos)`: the printed lines (the first line carries the
leading `\n` of the first report element). -/
def print_report_lines (model_infos : ModelDict) : List String :=
  let model_dirs := List.map (fun p => (Prod.snd p).path) model_infos
  let sorted_report_entries := List.mergeSort model_dirs entry_le
  ["\n" ++ report_rule,
   "| Valid Models without an existing prediction CSV file:",
   report_rule] ++ sorted_report_entries ++ [report_rule]

/-- `combinations = [(task, shot) for task in tasks for shot in shots]`. -/
def combinations : List (String × String) :=
  tasks.flatMap (fun task => shots.map (fun shot => (task, shot)))

/-- The worker phase: `pool.imap_unordered(process_task_shot_combination, ·)`
evaluated in the given arrival order; an exception in a worker propagates to
the consuming loop. -/
def run_workers (fs : FS) : List (String × String) →
    Except PyErr (List (String × String × Option (List String)))
  | [] => .ok []
  | c :: rest =>
    match get_model_dirs_without_prediction fs c.1 c.2 with
    | .error err => .error err
    | .ok r =>
      match run_workers fs rest with
      | .error err => .error err
      | .ok others => .ok ((c.1, c.2, r) :: others)

/-- Insert one combination's `model_list` into `model_infos`
(`for model_name in model_list: model_infos[model_name] = {...}`). -/
def aggregate_one (acc : ModelDict) (task shot : String) (model_list : List String) :
    ModelDict :=
  model_list.foldl (fun d name => dict_insert d name (model_info_of task shot name)) acc

/-- The aggregation loop `for task, shot, model_list in results: ...`.
A `model_list` of `None` (a combination whose setting directory could not be
listed) makes `for model_name in model_list` raise a `TypeError`. -/
def aggregate_results (acc : ModelDict) :
    List (String × String × Option (List String)) → Except PyErr ModelDict
  | [] => .ok acc
  | (_, _, none) :: _ => .error .typeError
  | (task, shot, some model_list) :: rest =>
    aggregate_results (aggregate_one acc task shot model_list) rest

/-- The scan-and-report phase of `__main__`, with the per-combination results
arriving in the order `order`: scan every combination, aggregate into
`model_infos`, and print the report. -/
def run_scan (fs : FS) (order : List (String × String)) : Except PyErr (List String) :=
  match run_workers fs order with
  | .error err => .error err
  | .ok results =>
    match aggregate_results [] results with
    | .error err => .error err
    | .ok model_infos => .ok (print_report_lines model_infos)

/-! ### Inference-command generation in `__main__` -/

/-- Python string interpolation of a value that may be `None`. -/
def pyStr : Option String → String
  | some s => s
  | none => "None"

/-- `os.path.join(work_dir_path, "data", "MedFMC_test", task, "images")`. -/
def images_path_of (task : String) : String :=
  pathJoin (pathJoin (pathJoin (pathJoin work_dir_path "data") "MedFMC_test") task) "images"

/-- The `--out` destination `os.path.join(model_path, f"{task}_{shot}-shot_submission.csv")`. -/
def out_filepath_of (task shot model_name : String) : String :=
  pathJoin (model_path_of task shot model_name) (submission_csv_name task shot)

/-- The inference command generated in `__main__` for one model directory. -/
def generate_infer_command (fs : FS) (task shot model_name : String) :
    Except PyErr String :=
  let model_path := model_path_of task shot model_name
  match get_file_from_directory fs model_path ".py" none with
  | .error err => .error err
  | .ok config_filepath =>
    match get_file_from_directory fs model_path ".pth" (some "best") with
    | .error err => .error err
    | .ok checkpoint_filepath =>
      .ok ("python tools/infer.py " ++ pyStr config_filepath ++ " " ++ pyStr checkpoint_filepath
        ++ " " ++ images_path_of task ++ " --batch-size " ++ toString batch_size
        ++ " --out " ++ out_filepath_of task shot model_name)

/-! ## `utility/align_submission.py`

CSV contents are modelled row-wise: a validation row is its (possibly null)
`img_id` cell plus the remaining cells, a submission row (read with
`header=None` and column 0 renamed to `img_id`) is its first cell plus the
remaining cells.  `pd.read_csv` leaves the original integer index on
`dropna`'s result, so validation rows are tagged with their original row
label; `df_val_order["img_id"][i]` is a label lookup on that index, while the
merge result carries a fresh `RangeIndex`, so `result["img_id"][i]` is
positional.  An inner merge on `img_id` produces, for each left row in order,
all matching right rows in order. -/

/-- `pd.read_csv(...).dropna(subset="img_id")`: the rows with a non-null
`img_id`, keeping their original integer labels. -/
def dropna_enum (valRows : List (Option String × List String)) :
    List (Nat × String × List String) :=
  valRows.enum.filterMap (fun p =>
    match p.2.1 with
    | some img_id => some (p.1, img_id, p.2.2)
    | none => none)

/-- `df_val_order.merge(df_submission, on='img_id')` restricted to
`df_submission.columns`: for each validation row in order, every submission
row with the same `img_id`, in submission order. -/
def merge_result (df_val_order : List (Nat × String × List String))
    (subRows : List (String × List String)) : List (String × List String) :=
  df_val_order.flatMap (fun v => subRows.filter (fun s => s.1 = v.2.1))

/-- Outcome of the `for i in range(len(df_val_order))` check loop. -/
inductive CheckResult where
  | passed
  | mismatch
  | keyError
  deriving DecidableEq, Repr

/-- The check loop: `result["img_id"][i]` is a positional access on the merge
result (`KeyError` when out of range), `df_val_order["img_id"][i]` a label
lookup on the original index (`KeyError` when label `i` was dropped); a
mismatch prints and `exit()`s. -/
def align_check (df_val_order : List (Nat × String × List String))
    (result : List (String × List String)) : List Nat → CheckResult
  | [] => .passed
  | i :: rest =>
    match result.get? i, df_val_order.find? (fun v => v.1 = i) with
    | some r, some v =>
      if r.1 = v.2.1 then align_check df_val_order result rest else .mismatch
    | _, _ => .keyError

/-- Outcome of processing one submission CSV: rewritten with the given rows,
aborted by the mismatch `exit()`, or crashed by an uncaught `KeyError`. -/
inductive AlignOutcome where
  | written (rows : List (String × List String))
  | aborted
  | crashed
  deriving DecidableEq, Repr

/-- The per-file body of the alignment loop: build `df_val_order`, merge,
check, and (only when the check passes) write the reordered rows. -/
def align_one (valRows : List (Option String × List String))
    (subRows : List (String × List String)) : AlignOutcome :=
  let df_val_order := dropna_enum valRows
  let result := merge_result df_val_order subRows
  match align_check df_val_order result (List.range df_val_order.length) with
  | .passed => .written result
  | .mismatch => .aborted
  | .keyError => .crashed

/-- `val_dir = "../data/MedFMC_val/"`. -/
def val_dir : String := "../data/MedFMC_val/"

/-- `path = os.path.join('..', 'submissions')`. -/
def submissions_path : String := pathJoin ".." "submissions"

/-- `f"{val_dir}{task}/{task}_val.csv"` (plain interpolation, not `os.path.join`). -/
def val_csv_path (task : String) : String :=
  val_dir ++ task ++ "/" ++ task ++ "_val.csv"

/-- One field of `datetime.strptime(·, "%d-%m_%H-%M-%S")`: one or two digits
within the directive's admissible range. -/
def parse_ts_field (lo hi : Nat) (s : String) : Option Nat :=
  if s.data ≠ [] ∧ s.data.length ≤ 2 ∧ s.data.all Char.isDigit then
    let n := digitsToNat s.data
    if lo ≤ n ∧ n ≤ hi then some n else none
  else none

/-- `datetime.strptime(d, "%d-%m_%H-%M-%S")` as an ordering key: the parsed
datetime has a fixed year (1900), so two parsed values compare as the tuples
`(month, day, hour, minute, second)`; `none` models the `ValueError` raised on
a non-matching name. -/
def parse_timestamp (s : String) : Option (Nat × Nat × Nat × Nat × Nat) :=
  match pySplit '_' s with
  | [dm, hms] =>
    match pySplit '-' dm, pySplit '-' hms with
    | [d, mo], [h, mi, se] => do
      let dayN ← parse_ts_field 1 31 d
      let monthN ← parse_ts_field 1 12 mo
      let hourN ← parse_ts_field 0 23 h
      let minN ← parse_ts_field 0 59 mi
      let secN ← parse_ts_field 0 61 se
      some (monthN, dayN, hourN, minN, secN)
    | _, _ => none
  | _ => none

/-- Strict lexicographic comparison of parsed timestamps (i.e. `datetime <`). -/
def ts_lt (a b : Nat × Nat × Nat × Nat × Nat) : Bool :=
  decide (a.1 < b.1) || (decide (a.1 = b.1) &&
    (decide (a.2.1 < b.2.1) || (decide (a.2.1 = b.2.1) &&
      (decide (a.2.2.1 < b.2.2.1) || (decide (a.2.2.1 = b.2.2.1) &&
        (decide (a.2.2.2.1 < b.2.2.2.1) || (decide (a.2.2.2.1 = b.2.2.2.1) &&
          decide (a.2.2.2.2 < b.2.2.2.2))))))))

/-- The iteration of Python's `max(·, key=·)` after the first element: the
current maximum is replaced only by a strictly greater key, so ties keep the
earliest element; a key that fails to parse raises `ValueError`. -/
def py_max_loop (key : String → Option (Nat × Nat × Nat × Nat × Nat))
    (cur : String) (curKey : Nat × Nat × Nat × Nat × Nat) :
    List String → Except PyErr String
  | [] => .ok cur
  | x :: xs =>
    match key x with
    | none => .error .valueError
    | some k =>
      if ts_lt curKey k then py_max_loop key x k xs else py_max_loop key cur curKey xs

/-- `max(directories, key=lambda d: datetime.strptime(d, format))`; an empty
sequence raises `ValueError`. -/
def py_max_by (key : String → Option (Nat × Nat × Nat × Nat × Nat)) :
    List String → Except PyErr String
  | [] => .error .valueError
  | x :: xs =>
    match key x with
    | none => .error .valueError
    | some k => py_max_loop key x k xs

/-- The environment `align_submission.py` runs against: the listing of the
submissions folder, the directory test, the listing of the chosen
`predictions` folder, and the parsed contents of the CSV files (`none` models
an I/O error raised by `pd.read_csv`). -/
structure AlignEnv where
  submissionsListing : Option (List String)
  isDir : String → Bool
  listdir : String → Option (List String)
  readValCsv : String → Option (List (Option String × List String))
  readSubCsv : String → Option (List (String × List String))

/-- The `for file in csv_files` loop: each written file is recorded as
`(submission_csv_path, rows)`; the mismatch branch `exit()`s cleanly, an
uncaught `KeyError` or read error stops the loop with that exception. -/
def align_files (env : AlignEnv) (results_dir : String) :
    List String → List (String × List (String × List String)) × Option PyErr
  | [] => ([], none)
  | file :: rest =>
    let submission_csv_path := pathJoin results_dir file
    let task := (pySplit '_' file).headD ""
    match env.readValCsv (val_csv_path task) with
    | none => ([], some .osError)
    | some valRows =>
      match env.readSubCsv submission_csv_path with
      | none => ([], some .osError)
      | some subRows =>
        match align_one valRows subRows with
        | .written rows =>
          let r := align_files env results_dir rest
          ((submission_csv_path, rows) :: r.1, r.2)
        | .aborted => ([], none)
        | .crashed => ([], some .keyError)

/-- The whole `align_submission.py` script: pick the newest submission
directory by parsed timestamp, list its `predictions` folder, and align every
`.csv` file there.  Returns the `(path, rows)` writes performed (in order)
and the exception, if any, that ended the run. -/
def align_script (env : AlignEnv) :
    List (String × List (String × List String)) × Option PyErr :=
  match env.submissionsListing with
  | none => ([], some .osError)
  | some entries =>
    let directories := entries.filter (fun d => env.isDir (pathJoin submissions_path d))
    match py_max_by parse_timestamp directories with
    | .error e => ([], some e)
    | .ok newest_directory =>
      let results_dir := pathJoin (pathJoin submissions_path newest_directory) "predictions"
      match env.listdir results_dir with
      | none => ([], some .osError)
      | some files =>
        align_files env results_dir (files.filter (fun f => pyEndsWith f ".csv"))

/-! ## `ensemble/eval_2_val.py` -/

/-- Python `s.strip(chars)`: remove the characters of `chars` from both ends. -/
def pyStripChars (chars : List Char) (s : String) : String :=
  String.mk (((s.data.dropWhile (chars.contains ·)).reverse.dropWhile
    (chars.contains ·)).reverse)

/-- Python `s.strip()`: remove whitespace from both ends. -/
def pyStripWs (s : String) : String :=
  String.mk (((s.data.dropWhile Char.isWhitespace).reverse.dropWhile
    Char.isWhitespace).reverse)

/-- `TASKS = ["colon", "endo", "chest"]` in `eval_2_val.py`. -/
def eval2val_tasks : List String := ["colon", "endo", "chest"]

/-- `SCRATCH_BASE_PATH`. -/
def scratch_base_path : String := "/scratch/medfm/medfm-challenge"

/-- `VAL_TARGET_PATH`. -/
def val_target_path : String := "ensemble/validation"

/-- The hard-coded `TIMESTAMP`. -/
def e2v_timestamp : String := "02-09_00-32-41"

/-- One entry appended to `model_infos` by `construct_model_paths`. -/
structure E2VModel where
  model_name : String
  task : String
  shot : String
  exp : String
  deriving DecidableEq, Repr

/-- The loop body of `construct_model_paths` for one report line: split on
tabs, take the stripped last part as the model name, and split the first part
on `/` for task, shot and experiment (an `IndexError` propagates when the
first part has fewer than three `/`-components). -/
def construct_line (line : String) : Except PyErr E2VModel :=
  let parts := pySplit '\t' line
  let model_name := pyStripWs (parts.getLastD "")
  let task_shot_exp := pySplit '/' (parts.headD "")
  match task_shot_exp.get? 0, task_shot_exp.get? 1, task_shot_exp.get? 2 with
  | some p0, some p1, some p2 =>
    .ok { model_name := model_name,
          task := pyStripWs (pyStripChars ['|', ' '] p0),
          shot := pyStripWs p1,
          exp := pyStripWs p2 }
  | _, _, _ => .error .indexError

/-- `construct_model_paths(report)`: keep the lines mentioning a task and
parse each. -/
def construct_model_paths (report : List String) : Except PyErr (List E2VModel) :=
  (report.filter (fun line => eval2val_tasks.any (fun t => pyContains line t))).mapM
    construct_line

/-- The keys of each model dictionary, in insertion order — what
`for name, task, shot, exp in model` actually iterates over. -/
def e2v_dict_keys : List String := ["model_name", "task", "shot", "exp"]

/-- Python unpacking of a string into four targets: iterates the string's
characters; any length other than four raises `ValueError`. -/
def unpack4 (s : String) : Except PyErr (String × String × String × String) :=
  match s.data with
  | [a, b, c, d] => .ok (String.mk [a], String.mk [b], String.mk [c], String.mk [d])
  | _ => .error .valueError

/-- The inner `for name, task, shot, exp in model` loop, iterating the
dictionary's keys: on a successful unpack the body builds the source path,
creates the target directory and then hits the unconditional `exit()`.
Returns the paths constructed before termination and the exception, if any. -/
def e2v_copy_inner : List String → List String × Option PyErr
  | [] => ([], none)
  | key :: _ =>
    match unpack4 key with
    | .error e => ([], some e)
    | .ok (name, task, shot, exp) =>
      let file_name := task ++ "_" ++ shot ++ "_validation.csv"
      let source_path := pathJoin (pathJoin (pathJoin (pathJoin
        (pathJoin scratch_base_path "work_dirs") task) shot) name) file_name
      let target_path := pathJoin (pathJoin (pathJoin val_target_path e2v_timestamp)
        "result") exp
      ([source_path, target_path], none)

/-- The outer `for model in model_infos` copy loop of `eval_2_val.py`: the
first model's inner loop either raises or reaches `exit()`, so later models
are never processed. -/
def e2v_copy_loop : List E2VModel → List String × Option PyErr
  | [] => ([], none)
  | _ :: _ => e2v_copy_inner e2v_dict_keys

/-! ## Theorems -/

/-- C10: for every evaluation report from which `construct_model_paths`
extracts at least one model entry, the per-model copy loop of `eval_2_val.py`
raises `ValueError` before constructing any source path or creating any
target directory: `for name, task, shot, exp in model` iterates the keys of
the model dictionary, and unpacking its first key, the ten-character string
`'model_name'`, into four targets fails. -/
theorem e2v_copy_loop_valueerror (report : List String) (models : List E2VModel)
    (hc : construct_model_paths report = .ok models) (hne : models ≠ []) :
    e2v_copy_loop models = ([], some .valueError) := by
  cases models with
  | nil => exact absurd rfl hne
  | cons m rest => rfl

/-- Witness for `e2v_copy_loop_valueerror` at a concrete one-line report. -/
theorem e2v_copy_loop_valueerror_witness :
    e2v_copy_loop [{ model_name := "modelA", task := "colon", shot := "1", exp := "exp1" }] =
      ([], some .valueError) :=
  e2v_copy_loop_valueerror ["| colon/1/exp1\tmodelA"] _ rfl (by simp)

/-- A filesystem on which the `colon/1-shot` setting directory cannot be
listed while every other directory lists as empty. -/
def fs_unlistable_colon1 : FS where
  listdir := fun d => if d = setting_directory "colon" "1" then none else some []
  isDir := fun _ => false
  pathExists := fun _ => false
  scalarTags := fun _ => []

/-- C3 (the code, not the claim): when listing one setting directory fails,
`get_model_dirs_without_prediction` returns `None` for that combination — the
intended skip — but the `__main__` aggregation loop then iterates that `None`
(`for model_name in model_list`), raising `TypeError` before `print_report`
is reached, so no report is printed at all. -/
theorem run_scan_typeerror_on_unlistable_setting :
    get_model_dirs_without_prediction fs_unlistable_colon1 "colon" "1" = .ok none ∧
    (∀ c ∈ combinations, c ≠ ("colon", "1") →
      get_model_dirs_without_prediction fs_unlistable_colon1 c.1 c.2 = .ok (some [])) ∧
    run_scan fs_unlistable_colon1 combinations = .error .typeError := by
  refine ⟨rfl, ?_, rfl⟩
  intro c hc hne
  fin_cases hc <;> first | rfl | exact absurd rfl hne

/-- The two commands of `run_commands_indexerror_counterexample`: the first
has the valid seventh component `colon` but no third space-separated field,
the second is the first command whose seventh `/`-component is not a task. -/
def c4_commands : List String := ["x/x/x/x/x/x/colon", "a/a/a/a/a/a/nottask/b"]

/-- C4 counterexample: the claim promises a `ValueError` upon the first
command whose seventh `/`-separated component is not a task name, for every
command list and bound.  With bound 1, the loop instead dies with an
`IndexError` on the earlier command (`command.split(" ")[2]`) before ever
reaching the offending one. -/
theorem run_commands_indexerror_counterexample :
    (pySplit '/' "a/a/a/a/a/a/nottask/b").get? 6 = some "nottask" ∧
    task_gpu_keys.contains "nottask" = false ∧
    (pySplit '/' "x/x/x/x/x/x/colon").get? 6 = some "colon" ∧
    task_gpu_keys.contains "colon" = true ∧
    run_commands_on_cluster c4_commands 1 = ([], some .indexError) := by
  refine ⟨rfl, rfl, rfl, rfl, rfl⟩

/-- C2 counterexample: duplicated `img_id`s.  The validation file's non-null
ids are `x, x` and the submission's first column is also `x, x` — the same
multiset — yet the merge produces the cross product: four rows are written
where the original file had two, so the rewritten file is not a permutation
of the original rows. -/
theorem align_one_duplicate_ids_counterexample :
    align_one [(some "x", []), (some "x", [])] [("x", ["a"]), ("x", ["b"])] =
      .written [("x", ["a"]), ("x", ["b"]), ("x", ["a"]), ("x", ["b"])] ∧
    ¬ List.Perm [("x", ["a"]), ("x", ["b"]), ("x", ["a"]), ("x", ["b"])]
        [("x", ["a"]), ("x", ["b"])] := by
  refine ⟨rfl, fun h => ?_⟩
  simpa using h.length_eq

/-- `run_commands_loop` never reads the gpu table's values: they only feed the
dead `gpu` binding. -/
theorem run_commands_loop_gpu_independent (gpuOf gpuOf' : String → String)
    (num_commands : Nat) (commands : List String) :
    ∀ tc : TaskCounter,
      run_commands_loop gpuOf num_commands tc commands =
        run_commands_loop gpuOf' num_commands tc commands := by
  induction commands with
  | nil => intro tc; rfl
  | cons command rest ih =>
    intro tc
    simp only [run_commands_loop]
    cases h6 : (pySplit '/' command).get? 6 with
    | none => rfl
    | some task =>
      dsimp only
      by_cases hk : task_gpu_keys.contains task = false
      · simp only [if_pos hk]
      · simp only [if_neg hk]
        by_cases hn : num_commands ≤ tc.get task
        · simp only [if_pos hn]
          exact ih tc
        · simp only [if_neg hn]
          cases h2 : (pySplit ' ' command).get? 2 with
          | none => rfl
          | some cfg_path =>
            dsimp only
            cases h67 : (pySplit '/' cfg_path).get? 6 with
            | none => rfl
            | some shot =>
              cases h7 : (pySplit '/' cfg_path).get? 7 with
              | none => rfl
              | some exp_part =>
                dsimp only
                rw [ih]

/-- Every submission performed by `run_commands_loop` carries the fixed
`--nodelist=gpuc` constraint in its `sbatch` command line. -/
theorem run_commands_loop_slurm_nodelist (gpuOf : String → String)
    (num_commands : Nat) (commands : List String) :
    ∀ tc : TaskCounter, ∀ s ∈ (run_commands_loop gpuOf num_commands tc commands).1,
      ∃ a b, s.slurm = a ++ "--nodelist=gpuc" ++ b := by
  induction commands with
  | nil => intro tc s hs; simp [run_commands_loop] at hs
  | cons command rest ih =>
    intro tc s hs
    simp only [run_commands_loop] at hs
    cases h6 : (pySplit '/' command).get? 6 with
    | none => rw [h6] at hs; simp at hs
    | some task =>
      rw [h6] at hs
      dsimp only at hs
      by_cases hk : task_gpu_keys.contains task = false
      · rw [if_pos hk] at hs; simp at hs
      · rw [if_neg hk] at hs
        by_cases hn : num_commands ≤ tc.get task
        · rw [if_pos hn] at hs
          exact ih tc s hs
        · rw [if_neg hn] at hs
          cases h2 : (pySplit ' ' command).get? 2 with
          | none => rw [h2] at hs; simp at hs
          | some cfg_path =>
            rw [h2] at hs
            dsimp only at hs
            cases h67 : (pySplit '/' cfg_path).get? 6 with
            | none => rw [h67] at hs; simp at hs
            | some shot =>
              rw [h67] at hs
              cases h7 : (pySplit '/' cfg_path).get? 7 with
              | none => rw [h7] at hs; simp at hs
              | some exp_part =>
                rw [h7] at hs
                dsimp only at hs
                simp only [List.mem_cons] at hs
                rcases hs with hs | hs
                · subst hs
                  refine ⟨"sbatch -p ls6 ",
                    " --wrap=\"" ++ command ++ "\" -o \""
                      ++ pyRsplitHead '/' cfg_path ++ "/"
                      ++ (task ++ "_" ++ shot ++ "_exp"
                          ++ toString (extract_exp_number exp_part) ++ "_slurm-%j")
                      ++ ".out\"", ?_⟩
                  simp only [String.append_assoc]
                  rfl
                · exact ih (tc.inc task) s hs

/-- C5: every `sbatch` command actually submitted by
`run_commands_on_cluster` contains the fixed `--nodelist=gpuc` node
constraint, and the per-task gpu table's values have no effect on the run:
the loop's result is the same for any value table. -/
theorem run_commands_nodelist_fixed (commands : List String) (num_commands : Nat) :
    (∀ gpuOf gpuOf' : String → String, ∀ tc : TaskCounter,
      run_commands_loop gpuOf num_commands tc commands =
        run_commands_loop gpuOf' num_commands tc commands) ∧
    ∀ s ∈ (run_commands_on_cluster commands num_commands).1,
      ∃ a b, s.slurm = a ++ "--nodelist=gpuc" ++ b :=
  ⟨fun gpuOf gpuOf' => run_commands_loop_gpu_independent gpuOf gpuOf' num_commands commands,
   run_commands_loop_slurm_nodelist task_gpu_map num_commands commands ⟨0, 0, 0⟩⟩

/-- A single well-formed inference command for the `colon` task. -/
def c5_commands : List String := ["x/x/x/x/x/x/colon/y a b/c/d/e/f/g/h/i/j"]

/-- Witness for `run_commands_nodelist_fixed`: the one command of
`c5_commands` is submitted and its `sbatch` line contains `--nodelist=gpuc`. -/
theorem run_commands_nodelist_fixed_witness :
    ∃ a b, ((run_commands_on_cluster c5_commands 1).1.headD ⟨"", ""⟩).slurm =
      a ++ "--nodelist=gpuc" ++ b :=
  (run_commands_nodelist_fixed c5_commands 1).2 _ (by decide)

/-- `command.split("/")[6]`, the component `run_commands_on_cluster` treats as
the task. -/
def command_task (c : String) : Option String := (pySplit '/' c).get? 6

/-- A command that the submission branch can process without an `IndexError`:
it has a third space-separated field with at least eight `/`-components. -/
def command_wellformed (c : String) : Bool :=
  match (pySplit ' ' c).get? 2 with
  | none => false
  | some cfg_path => decide (8 ≤ (pySplit '/' cfg_path).length)

/-- Membership in `task_gpu_keys`, spelt out. -/
theorem mem_task_gpu_keys {t : String} (h : task_gpu_keys.contains t = true) :
    t = "colon" ∨ t = "chest" ∨ t = "endo" := by
  simpa [task_gpu_keys, List.contains] using h

/-- Incrementing a task's counter raises that task's count by one. -/
theorem TaskCounter.get_inc_self (tc : TaskCounter) (t : String)
    (h : task_gpu_keys.contains t = true) : (tc.inc t).get t = tc.get t + 1 := by
  rcases mem_task_gpu_keys h with rfl | rfl | rfl <;>
    simp [TaskCounter.get, TaskCounter.inc]

/-- Incrementing one task's counter leaves a different task's count alone. -/
theorem TaskCounter.get_inc_ne (tc : TaskCounter) (task t : String)
    (htask : task_gpu_keys.contains task = true)
    (ht : task_gpu_keys.contains t = true) (hne : task ≠ t) :
    (tc.inc task).get t = tc.get t := by
  rcases mem_task_gpu_keys htask with rfl | rfl | rfl <;>
    rcases mem_task_gpu_keys ht with rfl | rfl | rfl <;>
    simp_all [TaskCounter.get, TaskCounter.inc]

/-- Counter invariant of the submission loop: the number of submissions for a
task never exceeds what is left of its budget. -/
theorem run_commands_loop_countP_le (gpuOf : String → String) (num_commands : Nat)
    (t : String) (ht : task_gpu_keys.contains t = true) (commands : List String) :
    ∀ tc : TaskCounter,
      ((run_commands_loop gpuOf num_commands tc commands).1.countP
        (fun s => decide (s.task = t))) ≤ num_commands - tc.get t := by
  induction commands with
  | nil => intro tc; simp [run_commands_loop]
  | cons command rest ih =>
    intro tc
    simp only [run_commands_loop]
    cases h6 : (pySplit '/' command).get? 6 with
    | none => simp
    | some task =>
      dsimp only
      by_cases hk : task_gpu_keys.contains task = false
      · rw [if_pos hk]; simp
      · rw [if_neg hk]
        by_cases hn : num_commands ≤ tc.get task
        · rw [if_pos hn]
          exact ih tc
        · rw [if_neg hn]
          cases h2 : (pySplit ' ' command).get? 2 with
          | none => simp
          | some cfg_path =>
            dsimp only
            cases h67 : (pySplit '/' cfg_path).get? 6 with
            | none => simp
            | some shot =>
              cases h7 : (pySplit '/' cfg_path).get? 7 with
              | none => simp
              | some exp_part =>
                dsimp only
                rw [List.countP_cons]
                have hkeys : task_gpu_keys.contains task = true := by
                  cases hcontains : task_gpu_keys.contains task with
                  | false => exact absurd hcontains hk
                  | true => rfl
                have h2' : tc.get task < num_commands := Nat.lt_of_not_le hn
                by_cases heq : task = t
                · subst heq
                  have h1 := ih (tc.inc task)
                  rw [TaskCounter.get_inc_self tc task hkeys] at h1
                  simp only [decide_eq_true_eq, if_true]
                  omega
                · have h1 := ih (tc.inc task)
                  rw [TaskCounter.get_inc_ne tc task t hkeys ht heq] at h1
                  simp only [decide_eq_true_eq]
                  rw [if_neg heq]
                  omega

/-- The loop traverses these commands without raising: each command's seventh
`/`-component is one of the three tasks, and — only when the command is not
skipped by the per-task limit at that point — the fields the submission
branch reads exist (`command.split(" ")[2]` with at least eight
`/`-components). -/
def commands_pass (num_commands : Nat) (tc : TaskCounter) : List String → Bool
  | [] => true
  | c :: rest =>
    match command_task c with
    | none => false
    | some tsk =>
      task_gpu_keys.contains tsk &&
        (if num_commands ≤ tc.get tsk then commands_pass num_commands tc rest
         else command_wellformed c && commands_pass num_commands (tc.inc tsk) rest)

/-- Reaching the first command whose seventh `/`-component is not a task
raises `ValueError`, provided the earlier commands all carry a valid task and
— when not skipped by the per-task limit — are well-formed enough not to die
of an `IndexError` first. -/
theorem run_commands_loop_valueerror (gpuOf : String → String) (num_commands : Nat) :
    ∀ (pre : List String) (bad : String) (rest : List String) (tc : TaskCounter)
      (tb : String),
      commands_pass num_commands tc pre = true →
      command_task bad = some tb → task_gpu_keys.contains tb = false →
      (run_commands_loop gpuOf num_commands tc (pre ++ bad :: rest)).2 =
        some .valueError := by
  intro pre
  induction pre with
  | nil =>
    intro bad rest tc tb _ hbad hcont
    simp only [command_task] at hbad
    simp only [List.nil_append, run_commands_loop, hbad]
    rw [if_pos hcont]
  | cons c pre' ih =>
    intro bad rest tc tb hpass hbad hcont
    simp only [commands_pass] at hpass
    cases htsk : command_task c with
    | none => rw [htsk] at hpass; exact absurd hpass (by simp)
    | some tsk =>
      rw [htsk] at hpass
      dsimp only at hpass
      rw [Bool.and_eq_true] at hpass
      obtain ⟨hmem, hrest⟩ := hpass
      simp only [command_task] at htsk
      simp only [List.cons_append, run_commands_loop, htsk]
      have hknot : ¬ task_gpu_keys.contains tsk = false := by rw [hmem]; simp
      rw [if_neg hknot]
      by_cases hn : num_commands ≤ tc.get tsk
      · simp only [if_pos hn]
        rw [if_pos hn] at hrest
        exact ih bad rest tc tb hrest hbad hcont
      · simp only [if_neg hn]
        rw [if_neg hn, Bool.and_eq_true] at hrest
        obtain ⟨hwf, hrest'⟩ := hrest
        simp only [command_wellformed] at hwf
        cases h2 : (pySplit ' ' c).get? 2 with
        | none => rw [h2] at hwf; exact absurd hwf (by simp)
        | some cfg_path =>
          rw [h2] at hwf
          dsimp only
          have hlen : 8 ≤ (pySplit '/' cfg_path).length := by simpa using hwf
          have h67 : (pySplit '/' cfg_path).get? 6 =
              some ((pySplit '/' cfg_path).get ⟨6, by omega⟩) :=
            List.get?_eq_get (by omega)
          have h7 : (pySplit '/' cfg_path).get? 7 =
              some ((pySplit '/' cfg_path).get ⟨7, by omega⟩) :=
            List.get?_eq_get (by omega)
          rw [h67, h7]
          dsimp only
          exact ih bad rest (tc.inc tsk) tb hrest' hbad hcont

/-- C4 (amended): `run_commands_on_cluster` submits at most `num_commands`
jobs for each task (excess commands for a task are silently skipped), and it
raises `ValueError` upon the first command whose seventh `/`-separated
component is not one of the three task names — provided every earlier command
has a task among the three and, when it is not skipped by the per-task limit,
enough structure not to raise an `IndexError` first. -/
theorem run_commands_on_cluster_bound_and_valueerror
    (commands : List String) (num_commands : Nat) :
    (∀ t, task_gpu_keys.contains t = true →
      ((run_commands_on_cluster commands num_commands).1.countP
        (fun s => decide (s.task = t))) ≤ num_commands) ∧
    (∀ pre bad rest tb, commands = pre ++ bad :: rest →
      commands_pass num_commands ⟨0, 0, 0⟩ pre = true →
      command_task bad = some tb → task_gpu_keys.contains tb = false →
      (run_commands_on_cluster commands num_commands).2 = some .valueError) := by
  constructor
  · intro t ht
    have h := run_commands_loop_countP_le task_gpu_map num_commands t ht commands ⟨0, 0, 0⟩
    have h0 : (⟨0, 0, 0⟩ : TaskCounter).get t = 0 := by
      rcases mem_task_gpu_keys ht with rfl | rfl | rfl <;> rfl
    rw [h0] at h
    simpa [run_commands_on_cluster] using h
  · intro pre bad rest tb hsplit hpass hbad hcont
    rw [hsplit]
    exact run_commands_loop_valueerror task_gpu_map num_commands pre bad rest ⟨0, 0, 0⟩
      tb hpass hbad hcont

/-- A malformed `colon` command (no third space-separated field) that the
per-task limit `num_commands = 0` skips, followed by a command whose seventh
`/`-component is `brain`. -/
def c4_witness_commands : List String :=
  ["x/x/x/x/x/x/colon", "a/a/a/a/a/a/brain/b"]

/-- Witness for `run_commands_on_cluster_bound_and_valueerror` on a concrete
command list with `num_commands = 0`: no `colon` submission, the skipped
first command's malformedness is irrelevant, and the run ends in
`ValueError` at the `brain` command. -/
theorem run_commands_bound_and_valueerror_witness :
    ((run_commands_on_cluster c4_witness_commands 0).1.countP
      (fun s => decide (s.task = "colon"))) ≤ 0 ∧
    (run_commands_on_cluster c4_witness_commands 0).2 = some .valueError := by
  constructor
  · exact (run_commands_on_cluster_bound_and_valueerror c4_witness_commands 0).1 "colon" rfl
  · exact (run_commands_on_cluster_bound_and_valueerror c4_witness_commands 0).2
      ["x/x/x/x/x/x/colon"] "a/a/a/a/a/a/brain/b" [] "brain" rfl (by decide) rfl rfl

/-- The condition under which the scan loop keeps a model directory: a best
`.pth` checkpoint exists among the directory's entries, the event file that
`get_event_file_from_model_dir` locates exists and carries the mAP tag, and
the prediction CSV is absent. -/
def scan_keep (fs : FS) (task shot abs_dir : String) : Bool :=
  (match fs.listdir abs_dir with
   | none => false
   | some files => files.any (fun f => pyEndsWith f ".pth" && pyContains f "best")) &&
  (match get_event_file_from_model_dir fs abs_dir with
   | none => false
   | some event_file => is_metric_in_event_file fs event_file metric_tags_map) &&
  !(contains_csv_file fs task shot abs_dir)

/-- The keep-condition expressed on a model directory name under its setting
directory. -/
def model_dir_needs_prediction (fs : FS) (task shot model_dir : String) : Bool :=
  scan_keep fs task shot (pathJoin (setting_directory task shot) model_dir)

/-- Unfolding `get_file_from_directory` on a listable directory with a
`contains_string`. -/
theorem get_file_from_directory_some (fs : FS) (directory extension pat : String)
    (files : List String) (h : fs.listdir directory = some files) :
    get_file_from_directory fs directory extension (some pat) =
      .ok ((files.find? (fun file => pyEndsWith file extension && pyContains file pat)).map
        (pathJoin directory)) := by
  rw [get_file_from_directory, h]

/-- Unfolding `get_file_from_directory` on an unlistable directory. -/
theorem get_file_from_directory_none (fs : FS) (directory extension : String)
    (pat : Option String) (h : fs.listdir directory = none) :
    get_file_from_directory fs directory extension pat = .error .osError := by
  rw [get_file_from_directory, h]

/-- When the scan loop completes without an exception, it returns exactly the
listed entries satisfying `scan_keep`, in listing order. -/
theorem scan_model_dirs_eq_filter (fs : FS) (task shot sd : String) :
    ∀ (entries : List String) (l : List String),
      scan_model_dirs fs task shot sd entries = .ok l →
      l = entries.filter (fun e => scan_keep fs task shot (pathJoin sd e)) := by
  intro entries
  induction entries with
  | nil =>
    intro l h
    simp only [scan_model_dirs] at h
    cases h
    rfl
  | cons e rest ih =>
    intro l h
    simp only [scan_model_dirs] at h
    rw [List.filter_cons]
    cases hls : fs.listdir (pathJoin sd e) with
    | none =>
      rw [get_file_from_directory_none fs _ _ _ hls] at h
      simp at h
    | some files =>
      rw [get_file_from_directory_some fs _ _ _ files hls] at h
      cases hf : files.find? (fun file => pyEndsWith file ".pth" && pyContains file "best") with
      | none =>
        rw [hf] at h
        simp only [Option.map_none'] at h
        have hany : files.any (fun f => pyEndsWith f ".pth" && pyContains f "best") = false := by
          rw [List.any_eq_false]
          intro x hx
          have := List.find?_eq_none.mp hf x hx
          simpa using this
        have hkeep : scan_keep fs task shot (pathJoin sd e) = false := by
          simp [scan_keep, hls, hany]
        rw [if_neg (by simp [hkeep])]
        exact ih l h
      | some f =>
        rw [hf] at h
        simp only [Option.map_some'] at h
        have hpf := List.find?_some hf
        have hany : files.any (fun f => pyEndsWith f ".pth" && pyContains f "best") = true :=
          List.any_eq_true.mpr ⟨f, List.mem_of_find?_eq_some hf, hpf⟩
        cases hev : get_event_file_from_model_dir fs (pathJoin sd e) with
        | none =>
          rw [hev] at h
          have hkeep : scan_keep fs task shot (pathJoin sd e) = false := by
            simp [scan_keep, hls, hev]
          rw [if_neg (by simp [hkeep])]
          exact ih l h
        | some event_file =>
          rw [hev] at h
          dsimp only at h
          cases hmet : is_metric_in_event_file fs event_file metric_tags_map with
          | false =>
            rw [hmet] at h
            rw [if_pos rfl] at h
            have hkeep : scan_keep fs task shot (pathJoin sd e) = false := by
              simp [scan_keep, hls, hev, hmet]
            rw [if_neg (by simp [hkeep])]
            exact ih l h
          | true =>
            rw [hmet] at h
            rw [if_neg (by simp)] at h
            cases hcsv : contains_csv_file fs task shot (pathJoin sd e) with
            | true =>
              rw [hcsv] at h
              rw [if_pos rfl] at h
              have hkeep : scan_keep fs task shot (pathJoin sd e) = false := by
                simp [scan_keep, hcsv]
              rw [if_neg (by simp [hkeep])]
              exact ih l h
            | false =>
              rw [hcsv] at h
              rw [if_neg (by simp)] at h
              cases hr : scan_model_dirs fs task shot sd rest with
              | error err => rw [hr] at h; simp at h
              | ok r =>
                rw [hr] at h
                cases h
                have hkeep : scan_keep fs task shot (pathJoin sd e) = true := by
                  simp [scan_keep, hls, hany, hev, hmet, hcsv]
                rw [if_pos (by simp [hkeep])]
                rw [ih r hr]

/-- The per-directory condition exactly as C1 words it: (i) a `.pth` file
whose name contains `best`, (ii) an event file reachable as the first listing
entry of SOME subdirectory's `vis_data` folder, (iii) that event file carries
the `multi-label/mAP` tag, (iv) no `{task}_{shot}-shot_submission.csv`.
(Stated from the claim, for comparison with the code's behaviour.) -/
def claim_c1_condition (fs : FS) (task shot model_dir : String) : Bool :=
  let abs_dir := pathJoin (setting_directory task shot) model_dir
  (match fs.listdir abs_dir with
   | none => false
   | some files =>
     files.any (fun f => pyEndsWith f ".pth" && pyContains f "best") &&
     files.any (fun sub =>
       fs.isDir (pathJoin abs_dir sub) &&
       (match fs.listdir (pathJoin (pathJoin abs_dir sub) "vis_data") with
        | some (ev :: _) =>
          is_metric_in_event_file fs
            (pathJoin (pathJoin (pathJoin abs_dir sub) "vis_data") ev) metric_tags_map
        | _ => false))) &&
  !(contains_csv_file fs task shot abs_dir)

/-- A filesystem whose only model directory `m` has two subdirectories: the
first (`a`) holds an event file without the mAP tag, the second (`b`) holds
one with it. -/
def fs_first_subdir : FS where
  listdir := fun d =>
    if d = "/scratch/medfm/medfm-challenge/work_dirs/colon/1-shot" then some ["m"]
    else if d = "/scratch/medfm/medfm-challenge/work_dirs/colon/1-shot/m" then
      some ["best.pth", "a", "b"]
    else if d = "/scratch/medfm/medfm-challenge/work_dirs/colon/1-shot/m/a/vis_data" then
      some ["ev1"]
    else if d = "/scratch/medfm/medfm-challenge/work_dirs/colon/1-shot/m/b/vis_data" then
      some ["ev2"]
    else none
  isDir := fun d =>
    d = "/scratch/medfm/medfm-challenge/work_dirs/colon/1-shot/m/a" ||
    d = "/scratch/medfm/medfm-challenge/work_dirs/colon/1-shot/m/b"
  pathExists := fun _ => false
  scalarTags := fun p =>
    if p = "/scratch/medfm/medfm-challenge/work_dirs/colon/1-shot/m/b/vis_data/ev2" then
      ["multi-label/mAP"]
    else []

/-- C1 counterexample: on `fs_first_subdir`, the directory `m` satisfies all
four conditions of the claim (its subdirectory `b` provides the required
event file), yet `get_model_dirs_without_prediction` omits it: the code only
inspects the FIRST subdirectory (`a`), whose event file lacks the tag. -/
theorem get_model_dirs_some_subdir_counterexample :
    fs_first_subdir.listdir (setting_directory "colon" "1") = some ["m"] ∧
    claim_c1_condition fs_first_subdir "colon" "1" "m" = true ∧
    get_model_dirs_without_prediction fs_first_subdir "colon" "1" = .ok (some []) := by
  refine ⟨rfl, ?_, rfl⟩
  decide

/-- C1 (amended): when the setting directory lists successfully and the scan
raises no exception, `get_model_dirs_without_prediction` returns exactly the
listed model directories that have a best `.pth` checkpoint, whose event file
— the first listing entry of the `vis_data` folder of the FIRST subdirectory,
as located by `get_event_file_from_model_dir` — carries the `multi-label/mAP`
tag, and that do not contain `{task}_{shot}-shot_submission.csv`; every other
model directory is omitted. -/
theorem get_model_dirs_without_prediction_filter (fs : FS) (task shot : String)
    (entries l : List String)
    (hlist : fs.listdir (setting_directory task shot) = some entries)
    (hok : get_model_dirs_without_prediction fs task shot = .ok (some l)) :
    l = entries.filter (model_dir_needs_prediction fs task shot) := by
  rw [get_model_dirs_without_prediction, hlist] at hok
  dsimp only at hok
  cases hs : scan_model_dirs fs task shot (setting_directory task shot) entries with
  | error err => rw [hs] at hok; simp [Except.map] at hok
  | ok l' =>
    rw [hs] at hok
    simp only [Except.map] at hok
    cases hok
    exact scan_model_dirs_eq_filter _ _ _ _ _ _ hs

/-- Witness for `get_model_dirs_without_prediction_filter` on
`fs_first_subdir`: the scan returns the empty list, which is indeed the
filter of the listing. -/
theorem get_model_dirs_without_prediction_filter_witness :
    ([] : List String) =
      ["m"].filter (model_dir_needs_prediction fs_first_subdir "colon" "1") :=
  get_model_dirs_without_prediction_filter fs_first_subdir "colon" "1" ["m"] [] rfl rfl

/-- C6: the generated inference command's `--out` argument is exactly the
path of `{task}_{shot}-shot_submission.csv` inside the model directory — the
very file whose absence `contains_csv_file` tests — and once that file
exists, a re-scan no longer reports the directory. -/
theorem infer_out_matches_missing_check (fs : FS) (task shot model_name : String) :
    (∀ cmd, generate_infer_command fs task shot model_name = .ok cmd →
      ∃ p, cmd = p ++ (" --out " ++ out_filepath_of task shot model_name)) ∧
    (∀ fs' : FS, contains_csv_file fs' task shot (model_path_of task shot model_name) =
      fs'.pathExists (out_filepath_of task shot model_name)) ∧
    (∀ (fs' : FS) (l : List String),
      fs'.pathExists (out_filepath_of task shot model_name) = true →
      get_model_dirs_without_prediction fs' task shot = .ok (some l) →
      model_name ∉ l) := by
  refine ⟨?_, fun _ => rfl, ?_⟩
  · intro cmd hcmd
    rw [generate_infer_command] at hcmd
    cases h1 : get_file_from_directory fs (model_path_of task shot model_name) ".py" none with
    | error err => rw [h1] at hcmd; simp at hcmd
    | ok config_filepath =>
      rw [h1] at hcmd
      dsimp only at hcmd
      cases h2 : get_file_from_directory fs (model_path_of task shot model_name)
          ".pth" (some "best") with
      | error err => rw [h2] at hcmd; simp at hcmd
      | ok checkpoint_filepath =>
        rw [h2] at hcmd
        dsimp only at hcmd
        cases hcmd
        refine ⟨"python tools/infer.py " ++ pyStr config_filepath ++ " "
          ++ pyStr checkpoint_filepath ++ " " ++ images_path_of task
          ++ " --batch-size " ++ toString batch_size, ?_⟩
        simp only [String.append_assoc]
  · intro fs' l hexists hok
    cases hsd : fs'.listdir (setting_directory task shot) with
    | none =>
      rw [get_model_dirs_without_prediction, hsd] at hok
      simp at hok
    | some entries =>
      rw [get_model_dirs_without_prediction, hsd] at hok
      dsimp only at hok
      cases hs : scan_model_dirs fs' task shot (setting_directory task shot) entries with
      | error err => rw [hs] at hok; simp [Except.map] at hok
      | ok l' =>
        rw [hs] at hok
        simp only [Except.map] at hok
        cases hok
        intro hmem
        have hl := scan_model_dirs_eq_filter _ _ _ _ _ _ hs
        rw [hl] at hmem
        have hkeep := (List.mem_filter.mp hmem).2
        have hcsv : contains_csv_file fs' task shot
            (pathJoin (setting_directory task shot) model_name) = false := by
          rcases Bool.and_eq_true_iff.mp hkeep with ⟨-, h3⟩
          simpa using h3
        have : contains_csv_file fs' task shot
            (pathJoin (setting_directory task shot) model_name) = true := hexists
        rw [hcsv] at this
        exact Bool.false_ne_true this

/-- A filesystem whose `colon/1-shot/m` directory holds a config and a best
checkpoint, enough for command generation. -/
def fs_c6_gen : FS where
  listdir := fun d =>
    if d = "/scratch/medfm/medfm-challenge/work_dirs/colon/1-shot/m" then
      some ["cfg.py", "best.pth"]
    else none
  isDir := fun _ => false
  pathExists := fun _ => false
  scalarTags := fun _ => []

/-- A filesystem whose `colon/1-shot/m` directory is a complete run whose
prediction CSV already exists, so a scan skips it. -/
def fs_c6_scan : FS where
  listdir := fun d =>
    if d = "/scratch/medfm/medfm-challenge/work_dirs/colon/1-shot" then some ["m"]
    else if d = "/scratch/medfm/medfm-challenge/work_dirs/colon/1-shot/m" then
      some ["best.pth", "vd"]
    else if d = "/scratch/medfm/medfm-challenge/work_dirs/colon/1-shot/m/vd/vis_data" then
      some ["ev"]
    else none
  isDir := fun d => d = "/scratch/medfm/medfm-challenge/work_dirs/colon/1-shot/m/vd"
  pathExists := fun p =>
    p = "/scratch/medfm/medfm-challenge/work_dirs/colon/1-shot/m/colon_1-shot_submission.csv"
  scalarTags := fun p =>
    if p = "/scratch/medfm/medfm-challenge/work_dirs/colon/1-shot/m/vd/vis_data/ev" then
      ["multi-label/mAP"]
    else []

/-- Witness for `infer_out_matches_missing_check`: a generated command ends
in the `--out` path, and with the CSV present the scan stops reporting `m`. -/
theorem infer_out_matches_missing_check_witness :
    (∃ p, ((generate_infer_command fs_c6_gen "colon" "1" "m").toOption.getD "") =
      p ++ (" --out " ++ out_filepath_of "colon" "1" "m")) ∧
    "m" ∉ ([] : List String) :=
  ⟨(infer_out_matches_missing_check fs_c6_gen "colon" "1" "m").1 _ rfl,
   (infer_out_matches_missing_check fs_c6_gen "colon" "1" "m").2.2 fs_c6_scan [] rfl rfl⟩

/-- The row-labelling step of `dropna_enum`, generalised to an arbitrary
starting index for the induction. -/
def dropna_enumFrom (n : Nat) (valRows : List (Option String × List String)) :
    List (Nat × String × List String) :=
  (valRows.enumFrom n).filterMap (fun p =>
    match p.2.1 with
    | some img_id => some (p.1, img_id, p.2.2)
    | none => none)

/-- `dropna_enum` is the `n = 0` instance. -/
theorem dropna_enum_eq_enumFrom (valRows : List (Option String × List String)) :
    dropna_enum valRows = dropna_enumFrom 0 valRows := rfl

/-- The labels kept by `dropna` are at least the starting index and strictly
increasing: `dropna` keeps the original row order and original labels. -/
theorem dropna_enumFrom_labels (valRows : List (Option String × List String)) :
    ∀ n : Nat,
      (∀ v ∈ dropna_enumFrom n valRows, n ≤ v.1) ∧
      (dropna_enumFrom n valRows).Pairwise (fun a b => a.1 < b.1) := by
  induction valRows with
  | nil => intro n; simp [dropna_enumFrom]
  | cons r tail ih =>
    intro n
    obtain ⟨ihmem, ihpw⟩ := ih (n + 1)
    cases hid : r.1 with
    | none =>
      have hd : dropna_enumFrom n (r :: tail) = dropna_enumFrom (n + 1) tail := by
        simp [dropna_enumFrom, List.filterMap_cons, hid]
      rw [hd]
      exact ⟨fun v hv => Nat.le_of_succ_le (ihmem v hv), ihpw⟩
    | some img_id =>
      have hd : dropna_enumFrom n (r :: tail) =
          (n, img_id, r.2) :: dropna_enumFrom (n + 1) tail := by
        simp [dropna_enumFrom, List.filterMap_cons, hid]
      rw [hd]
      constructor
      · intro v hv
        rcases List.mem_cons.mp hv with rfl | hv
        · exact Nat.le_refl n
        · exact Nat.le_of_succ_le (ihmem v hv)
      · exact List.Pairwise.cons (fun v hv => Nat.lt_of_succ_le (ihmem v hv)) ihpw

/-- A strictly increasing label list that contains every index below its
length is exactly `range`. -/
theorem labels_eq_range (dfv : List (Nat × String × List String))
    (hpw : dfv.Pairwise (fun a b => a.1 < b.1))
    (hall : ∀ i < dfv.length, ∃ v ∈ dfv, v.1 = i) :
    dfv.map (fun v => v.1) = List.range dfv.length := by
  have hpw' : (dfv.map (fun v => v.1)).Pairwise (· < ·) :=
    List.pairwise_map.mpr hpw
  have hnd : (dfv.map (fun v => v.1)).Nodup :=
    hpw'.imp Nat.ne_of_lt
  have hsub : List.range dfv.length ⊆ dfv.map (fun v => v.1) := by
    intro i hi
    rw [List.mem_range] at hi
    obtain ⟨v, hv, rfl⟩ := hall i hi
    exact List.mem_map_of_mem _ hv
  have hperm : List.Perm (List.range dfv.length) (dfv.map (fun v => v.1)) := by
    refine List.Subperm.perm_of_length_le ((List.nodup_range _).subperm hsub) ?_
    simp
  haveI : IsAntisymm ℕ (· < ·) :=
    ⟨fun a b h1 h2 => absurd h2 (Nat.lt_asymm h1)⟩
  exact (List.eq_of_perm_of_sorted hperm (List.pairwise_lt_range _) hpw').symm

/-- When the label list is a contiguous range starting at `s`, the label
lookup `df_val_order["img_id"][s + j]` is the positional row `j`. -/
theorem find_label_eq_get (dfv : List (Nat × String × List String)) :
    ∀ (s j : Nat), dfv.map (fun v => v.1) = List.range' s dfv.length →
      j < dfv.length →
      dfv.find? (fun v => v.1 = s + j) = dfv.get? j := by
  induction dfv with
  | nil => intro s j _ hj; simp at hj
  | cons v rest ih =>
    intro s j hmap hj
    simp only [List.map_cons, List.length_cons, List.range'_succ, List.cons.injEq] at hmap
    obtain ⟨hv1, hrest⟩ := hmap
    cases j with
    | zero =>
      simp [List.find?_cons, hv1]
    | succ k =>
      have hne : (decide (v.1 = s + (k + 1))) = false := by
        rw [hv1]
        simp
      rw [List.find?_cons, hne]
      simp only [List.get?]
      simp only [show s + (k + 1) = (s + 1) + k from by omega]
      exact ih (s + 1) k hrest (by simpa using hj)

/-- Characterisation of the check loop: it passes exactly when, at every
index it visits, the positional merge row and the label lookup both exist and
their `img_id`s agree. -/
theorem align_check_eq_passed (dfv : List (Nat × String × List String))
    (result : List (String × List String)) :
    ∀ is : List Nat,
      align_check dfv result is = .passed ↔
        ∀ i ∈ is, ∃ r v, result.get? i = some r ∧
          dfv.find? (fun x => x.1 = i) = some v ∧ r.1 = v.2.1 := by
  intro is
  induction is with
  | nil => simp [align_check]
  | cons i rest ih =>
    simp only [align_check]
    cases hr : result.get? i with
    | none =>
      dsimp only
      constructor
      · intro h; simp at h
      · intro h
        obtain ⟨r, v, hr', -, -⟩ := h i (List.mem_cons_self i rest)
        rw [hr] at hr'
        cases hr'
    | some r =>
      cases hv : dfv.find? (fun x => x.1 = i) with
      | none =>
        dsimp only
        constructor
        · intro h; simp at h
        · intro h
          obtain ⟨r', v, -, hv', -⟩ := h i (List.mem_cons_self i rest)
          rw [hv] at hv'
          cases hv'
      | some v =>
        dsimp only
        by_cases heq : r.1 = v.2.1
        · rw [if_pos heq, ih]
          constructor
          · intro h j hj
            rcases List.mem_cons.mp hj with rfl | hj
            · exact ⟨r, v, hr, hv, heq⟩
            · exact h j hj
          · intro h j hj
            exact h j (List.mem_cons_of_mem i hj)
        · rw [if_neg heq]
          constructor
          · intro h; simp at h
          · intro h
            obtain ⟨r', v', hr', hv', heq'⟩ := h i (List.mem_cons_self i rest)
            rw [hr] at hr'
            cases hr'
            rw [hv] at hv'
            cases hv'
            exact absurd heq' heq

/-- C7: the alignment loop writes a submission file only when the post-merge
check succeeds: a written outcome carries exactly the merged rows, the merged
result has at least as many rows as the validation ordering, and its first
`len(df_val_order)` `img_id`s coincide positionally with the validation
ordering.  (On a mismatch the script `exit()`s, and on a shorter merge result
the positional access raises `KeyError`; both happen before `to_csv`, so the
file is unchanged.) -/
theorem align_one_written_only_if_check_passes
    (valRows : List (Option String × List String))
    (subRows rows : List (String × List String))
    (hw : align_one valRows subRows = .written rows) :
    rows = merge_result (dropna_enum valRows) subRows ∧
    (dropna_enum valRows).length ≤ (merge_result (dropna_enum valRows) subRows).length ∧
    ∀ i < (dropna_enum valRows).length,
      ∃ r v, (merge_result (dropna_enum valRows) subRows).get? i = some r ∧
        (dropna_enum valRows).get? i = some v ∧ r.1 = v.2.1 := by
  rw [align_one] at hw
  cases hchk : align_check (dropna_enum valRows)
      (merge_result (dropna_enum valRows) subRows)
      (List.range (dropna_enum valRows).length) with
  | mismatch => rw [hchk] at hw; cases hw
  | keyError => rw [hchk] at hw; cases hw
  | passed =>
    rw [hchk] at hw
    dsimp only at hw
    cases hw
    have hcond := (align_check_eq_passed (dropna_enum valRows)
      (merge_result (dropna_enum valRows) subRows)
      (List.range (dropna_enum valRows).length)).mp hchk
    have hpw := (dropna_enumFrom_labels valRows 0).2
    rw [← dropna_enum_eq_enumFrom] at hpw
    have hall : ∀ i < (dropna_enum valRows).length,
        ∃ v ∈ dropna_enum valRows, v.1 = i := by
      intro i hi
      obtain ⟨r, v, -, hv, -⟩ := hcond i (List.mem_range.mpr hi)
      refine ⟨v, List.mem_of_find?_eq_some hv, ?_⟩
      have := List.find?_some hv
      simpa using this
    have hmap := labels_eq_range (dropna_enum valRows) hpw hall
    have hfind : ∀ i, i < (dropna_enum valRows).length →
        (dropna_enum valRows).find? (fun v => v.1 = i) =
          (dropna_enum valRows).get? i := by
      intro i hi
      have h0 := find_label_eq_get (dropna_enum valRows) 0 i
        (by rw [hmap, List.range_eq_range']) hi
      simpa using h0
    have hlen : (dropna_enum valRows).length ≤
        (merge_result (dropna_enum valRows) subRows).length := by
      by_contra hlt
      push_neg at hlt
      obtain ⟨r, v, hr, -, -⟩ := hcond
        (merge_result (dropna_enum valRows) subRows).length
        (List.mem_range.mpr hlt)
      rw [List.get?_eq_none.mpr (Nat.le_refl _)] at hr
      cases hr
    refine ⟨rfl, hlen, ?_⟩
    intro i hi
    obtain ⟨r, v, hr, hv, heq⟩ := hcond i (List.mem_range.mpr hi)
    rw [hfind i hi] at hv
    exact ⟨r, v, hr, hv, heq⟩

/-- Witness for `align_one_written_only_if_check_passes` on a one-row file. -/
theorem align_one_written_check_witness :
    ∃ r v, (merge_result (dropna_enum [(some "x", ["v"])]) [("x", ["a"])]).get? 0 = some r ∧
      (dropna_enum [(some "x", ["v"])]).get? 0 = some v ∧ r.1 = v.2.1 :=
  (align_one_written_only_if_check_passes [(some "x", ["v"])] [("x", ["a"])]
    [("x", ["a"])] rfl).2.2 0 (by decide)

/-- A key occurring exactly once in a row list splits it into the unique
matching row and two key-free halves. -/
theorem count_one_decomp (sub : List (String × List String)) (id : String)
    (h : (sub.map Prod.fst).count id = 1) :
    ∃ s₁ z s₂, sub = s₁ ++ z :: s₂ ∧ z.1 = id ∧
      (∀ x ∈ s₁, ¬ x.1 = id) ∧ (∀ x ∈ s₂, ¬ x.1 = id) := by
  induction sub with
  | nil => simp at h
  | cons s rest ih =>
    simp only [List.map_cons, List.count_cons] at h
    by_cases hs : s.1 = id
    · rw [if_pos (by simp [hs])] at h
      have h0 : (rest.map Prod.fst).count id = 0 := by omega
      have hnot : id ∉ rest.map Prod.fst := List.count_eq_zero.mp h0
      refine ⟨[], s, rest, by simp, hs, by simp, ?_⟩
      intro x hx hxid
      exact hnot (hxid ▸ List.mem_map_of_mem Prod.fst hx)
    · rw [if_neg (by simp [hs]), Nat.add_zero] at h
      obtain ⟨s₁, z, s₂, hsub, hz, h₁, h₂⟩ := ih h
      exact ⟨s :: s₁, z, s₂, by rw [hsub]; rfl, hz,
        fun x hx => (List.mem_cons.mp hx).elim (fun he => he ▸ hs) (h₁ x), h₂⟩

/-- Splitting a one-to-one merge: when the keys are distinct and the
submission's key multiset matches, concatenating the per-key filters yields a
permutation of the submission whose key sequence is exactly the key list. -/
theorem flatMap_filter_key_perm :
    ∀ (ids : List String) (sub : List (String × List String)),
      ids.Nodup → (sub.map Prod.fst).Perm ids →
      List.Perm (ids.flatMap (fun id => sub.filter (fun s => s.1 = id))) sub ∧
      (ids.flatMap (fun id => sub.filter (fun s => s.1 = id))).map Prod.fst = ids := by
  intro ids
  induction ids with
  | nil =>
    intro sub _ hperm
    have hsub : sub = [] := List.map_eq_nil_iff.mp hperm.eq_nil
    subst hsub
    simp
  | cons id ids' ih =>
    intro sub hnodup hperm
    have hid_notmem : id ∉ ids' := (List.nodup_cons.mp hnodup).1
    have hcount : (sub.map Prod.fst).count id = 1 := by
      rw [hperm.count_eq, List.count_cons, List.count_eq_zero.mpr hid_notmem]
      simp
    obtain ⟨s₁, z, s₂, hsub, hz, h₁, h₂⟩ := count_one_decomp sub id hcount
    subst hsub
    have hfid : (s₁ ++ z :: s₂).filter (fun s => decide (s.1 = id)) = [z] := by
      rw [List.filter_append, List.filter_cons]
      rw [List.filter_eq_nil_iff.mpr (by intro a ha; simpa using h₁ a ha)]
      rw [List.filter_eq_nil_iff.mpr (by intro a ha; simpa using h₂ a ha)]
      rw [if_pos (by simp [hz])]
      rfl
    have hrest_perm : ((s₁ ++ s₂).map Prod.fst).Perm ids' := by
      have h1 : ((s₁ ++ z :: s₂).map Prod.fst).Perm (z.1 :: (s₁ ++ s₂).map Prod.fst) := by
        rw [List.map_append, List.map_cons, List.map_append]
        exact List.perm_middle
      have h2 := h1.symm.trans hperm
      rw [hz] at h2
      exact h2.cons_inv
    have hcongr : ids'.flatMap (fun id' => (s₁ ++ z :: s₂).filter (fun s => s.1 = id')) =
        ids'.flatMap (fun id' => (s₁ ++ s₂).filter (fun s => s.1 = id')) := by
      refine List.flatMap_congr ?_
      intro id' hid'
      have hne : ¬ (z.1 = id') := by
        rw [hz]
        exact fun h => hid_notmem (h ▸ hid')
      rw [List.filter_append, List.filter_cons, if_neg (by simp [hne]), List.filter_append]
    obtain ⟨ihperm, ihmap⟩ := ih (s₁ ++ s₂) (List.nodup_cons.mp hnodup).2 hrest_perm
    constructor
    · rw [List.flatMap_cons, hfid, hcongr]
      exact (ihperm.cons z).trans List.perm_middle.symm
    · rw [List.flatMap_cons, hfid, hcongr]
      rw [List.map_append, ihmap]
      simp [hz]

/-- Rows whose `img_id` is null are all dropped. -/
theorem dropna_enumFrom_nulls :
    ∀ (B : List (Option String × List String)) (n : Nat),
      (∀ b ∈ B, b.1 = none) → dropna_enumFrom n B = [] := by
  intro B
  induction B with
  | nil => intro n _; rfl
  | cons b rest ih =>
    intro n hB
    have hb : b.1 = none := hB b (List.mem_cons_self b rest)
    simp only [dropna_enumFrom, List.enumFrom_cons, List.filterMap_cons, hb]
    exact ih (n + 1) (fun x hx => hB x (List.mem_cons_of_mem b hx))

/-- `dropna` on non-null rows followed by null rows keeps exactly the
non-null rows with their positional labels. -/
theorem dropna_enumFrom_append (B : List (Option String × List String))
    (hB : ∀ b ∈ B, b.1 = none) :
    ∀ (A : List (String × List String)) (n : Nat),
      dropna_enumFrom n (A.map (fun r => (some r.1, r.2)) ++ B) =
        (A.enumFrom n).map (fun p => (p.1, p.2.1, p.2.2)) := by
  intro A
  induction A with
  | nil =>
    intro n
    simpa using dropna_enumFrom_nulls B n hB
  | cons a A' ih =>
    intro n
    simp only [List.map_cons, List.cons_append, dropna_enumFrom, List.enumFrom_cons,
      List.filterMap_cons]
    congr 1
    exact ih (n + 1)

/-- The merge over labelled validation rows only reads the `img_id`s: it is
the flat map over the key list. -/
theorem merge_result_enum (sub : List (String × List String)) :
    ∀ (A : List (String × List String)) (n : Nat),
      ((A.enumFrom n).map (fun p => (p.1, p.2.1, p.2.2))).flatMap
          (fun v => sub.filter (fun s => s.1 = v.2.1)) =
        (A.map Prod.fst).flatMap (fun id => sub.filter (fun s => s.1 = id)) := by
  intro A
  induction A with
  | nil => intro n; rfl
  | cons a A' ih =>
    intro n
    simp only [List.enumFrom_cons, List.map_cons, List.flatMap_cons]
    rw [ih (n + 1)]

/-- C2 (amended): when the non-null validation `img_id`s are pairwise
distinct, precede any null rows, and agree as a multiset with the
submission's first column, the alignment loop rewrites the file: the written
rows are a permutation of the original submission rows and their `img_id`
order is exactly the validation order; no row is added, dropped or
modified. -/
theorem align_one_aligned_of_distinct_ids
    (A : List (String × List String)) (B : List (Option String × List String))
    (subRows : List (String × List String))
    (hB : ∀ b ∈ B, b.1 = none)
    (hnodup : (A.map Prod.fst).Nodup)
    (hperm : (subRows.map Prod.fst).Perm (A.map Prod.fst)) :
    ∃ rows,
      align_one (A.map (fun r => (some r.1, r.2)) ++ B) subRows = .written rows ∧
      List.Perm rows subRows ∧ rows.map Prod.fst = A.map Prod.fst := by
  have hdfv : dropna_enum (A.map (fun r => (some r.1, r.2)) ++ B) =
      (A.enumFrom 0).map (fun p => (p.1, p.2.1, p.2.2)) := by
    rw [dropna_enum_eq_enumFrom]
    exact dropna_enumFrom_append B hB A 0
  have hmr : merge_result (dropna_enum (A.map (fun r => (some r.1, r.2)) ++ B)) subRows =
      (A.map Prod.fst).flatMap (fun id => subRows.filter (fun s => s.1 = id)) := by
    rw [merge_result, hdfv]
    exact merge_result_enum subRows A 0
  obtain ⟨hpermR, hmapR⟩ := flatMap_filter_key_perm (A.map Prod.fst) subRows hnodup hperm
  have hlen_dfv : (dropna_enum (A.map (fun r => (some r.1, r.2)) ++ B)).length = A.length := by
    rw [hdfv]
    simp
  have hlabels : (dropna_enum (A.map (fun r => (some r.1, r.2)) ++ B)).map (fun v => v.1) =
      List.range' 0 (dropna_enum (A.map (fun r => (some r.1, r.2)) ++ B)).length := by
    rw [hlen_dfv, hdfv, List.map_map]
    have hc : ((fun v : Nat × String × List String => v.1) ∘
        (fun p : Nat × (String × List String) => (p.1, p.2.1, p.2.2))) =
        (Prod.fst : Nat × (String × List String) → Nat) := rfl
    rw [hc, List.enumFrom_map_fst]
  have hcond : ∀ i ∈ List.range (dropna_enum (A.map (fun r => (some r.1, r.2)) ++ B)).length,
      ∃ r v, (merge_result (dropna_enum (A.map (fun r => (some r.1, r.2)) ++ B)) subRows).get? i = some r ∧
        (dropna_enum (A.map (fun r => (some r.1, r.2)) ++ B)).find? (fun x => x.1 = i) = some v ∧
        r.1 = v.2.1 := by
    intro i hi
    rw [List.mem_range, hlen_dfv] at hi
    have hidsi : (A.map Prod.fst).get? i = some ((A.get ⟨i, hi⟩).1) := by
      rw [List.get?_map, List.get?_eq_get hi]
      rfl
    have hRmap : ((merge_result (dropna_enum (A.map (fun r => (some r.1, r.2)) ++ B)) subRows).map Prod.fst).get? i =
        some ((A.get ⟨i, hi⟩).1) := by
      rw [hmr, hmapR]
      exact hidsi
    rw [List.get?_map] at hRmap
    obtain ⟨r, hr, hr1⟩ : ∃ r,
        (merge_result (dropna_enum (A.map (fun r => (some r.1, r.2)) ++ B)) subRows).get? i = some r ∧
        r.1 = (A.get ⟨i, hi⟩).1 := by
      cases hg : (merge_result (dropna_enum (A.map (fun r => (some r.1, r.2)) ++ B)) subRows).get? i with
      | none => rw [hg] at hRmap; simp at hRmap
      | some r =>
        rw [hg] at hRmap
        simp only [Option.map_some', Option.some.injEq] at hRmap
        exact ⟨r, rfl, hRmap⟩
    have hfind := find_label_eq_get (dropna_enum (A.map (fun r => (some r.1, r.2)) ++ B)) 0 i
      hlabels (by rw [hlen_dfv]; exact hi)
    simp only [Nat.zero_add] at hfind
    have hv : (dropna_enum (A.map (fun r => (some r.1, r.2)) ++ B)).get? i =
        some (0 + i, (A.get ⟨i, hi⟩).1, (A.get ⟨i, hi⟩).2) := by
      rw [hdfv, List.get?_map, List.get?_enumFrom, List.get?_eq_get hi]
      rfl
    refine ⟨r, (0 + i, (A.get ⟨i, hi⟩).1, (A.get ⟨i, hi⟩).2), hr, ?_, ?_⟩
    · rw [hfind]
      exact hv
    · rw [hr1]
  have hchk := (align_check_eq_passed
    (dropna_enum (A.map (fun r => (some r.1, r.2)) ++ B))
    (merge_result (dropna_enum (A.map (fun r => (some r.1, r.2)) ++ B)) subRows)
    (List.range (dropna_enum (A.map (fun r => (some r.1, r.2)) ++ B)).length)).mpr hcond
  refine ⟨merge_result (dropna_enum (A.map (fun r => (some r.1, r.2)) ++ B)) subRows, ?_, ?_, ?_⟩
  · simp only [align_one]
    rw [hchk]
  · rw [hmr]
    exact hpermR
  · rw [hmr]
    exact hmapR

/-- Witness for `align_one_aligned_of_distinct_ids`: a two-row submission in
reverse validation order, plus a trailing null validation row, is rewritten
into validation order. -/
theorem align_one_aligned_witness :
    ∃ rows,
      align_one ([("x", ["1"]), ("y", ["2"])].map (fun r => (some r.1, r.2)) ++
          [((none : Option String), ["junk"])])
        [("y", ["b"]), ("x", ["a"])] = .written rows ∧
      List.Perm rows [("y", ["b"]), ("x", ["a"])] ∧
      rows.map Prod.fst = [("x", ["1"]), ("y", ["2"])].map Prod.fst :=
  align_one_aligned_of_distinct_ids [("x", ["1"]), ("y", ["2"])]
    [((none : Option String), ["junk"])] [("y", ["b"]), ("x", ["a"])]
    (by intro b hb; simp at hb; rw [hb]) (by decide) (by decide)

/-- `ts_lt` is transitive. -/
theorem ts_lt_trans {a b c : Nat × Nat × Nat × Nat × Nat}
    (h1 : ts_lt a b = true) (h2 : ts_lt b c = true) : ts_lt a c = true := by
  simp only [ts_lt, Bool.or_eq_true, Bool.and_eq_true, decide_eq_true_eq] at h1 h2 ⊢
  omega

/-- `¬ b < a` together with `b < c` gives `a < c` (`ts_lt` is a strict total
order). -/
theorem ts_lt_of_not_lt_of_lt {a b c : Nat × Nat × Nat × Nat × Nat}
    (h1 : ts_lt b a = false) (h2 : ts_lt b c = true) : ts_lt a c = true := by
  simp only [ts_lt, Bool.or_eq_true, Bool.and_eq_true, decide_eq_true_eq,
    Bool.or_eq_false_iff, Bool.and_eq_false_iff, decide_eq_false_iff_not] at h1 h2 ⊢
  omega

/-- Invariant of the `max` iteration: the result is drawn from the current
maximum and the remaining elements, and its key is not below any of their
keys. -/
theorem py_max_loop_spec (key : String → Option (Nat × Nat × Nat × Nat × Nat)) :
    ∀ (xs : List String) (cur : String) (curKey : Nat × Nat × Nat × Nat × Nat)
      (m : String),
      key cur = some curKey →
      py_max_loop key cur curKey xs = .ok m →
      ∃ mk, key m = some mk ∧ (m = cur ∨ m ∈ xs) ∧ ts_lt mk curKey = false ∧
        ∀ d ∈ xs, ∃ kd, key d = some kd ∧ ts_lt mk kd = false := by
  intro xs
  induction xs with
  | nil =>
    intro cur curKey m hcur h
    simp only [py_max_loop] at h
    cases h
    exact ⟨curKey, hcur, Or.inl rfl, by
      simp [ts_lt], by simp⟩
  | cons x xs' ih =>
    intro cur curKey m hcur h
    simp only [py_max_loop] at h
    cases hx : key x with
    | none => rw [hx] at h; cases h
    | some k =>
      rw [hx] at h
      dsimp only at h
      by_cases hlt : ts_lt curKey k = true
      · rw [if_pos hlt] at h
        obtain ⟨mk, hmk, hmem, hge, hall⟩ := ih x k m hx h
        refine ⟨mk, hmk, ?_, ?_, ?_⟩
        · rcases hmem with rfl | hmem
          · exact Or.inr (List.mem_cons_self _ _)
          · exact Or.inr (List.mem_cons_of_mem _ hmem)
        · cases hc : ts_lt mk curKey with
          | false => rfl
          | true => exact absurd (ts_lt_trans hc hlt) (by simp [hge])
        · intro d hd
          rcases List.mem_cons.mp hd with rfl | hd
          · exact ⟨k, hx, hge⟩
          · exact hall d hd
      · rw [if_neg hlt] at h
        obtain ⟨mk, hmk, hmem, hge, hall⟩ := ih cur curKey m hcur h
        refine ⟨mk, hmk, ?_, hge, ?_⟩
        · rcases hmem with rfl | hmem
          · exact Or.inl rfl
          · exact Or.inr (List.mem_cons_of_mem _ hmem)
        · intro d hd
          rcases List.mem_cons.mp hd with rfl | hd
          · refine ⟨k, hx, ?_⟩
            cases hc : ts_lt mk k with
            | false => rfl
            | true =>
              have h2 := ts_lt_of_not_lt_of_lt hge hc
              exact absurd h2 hlt
          · exact hall d hd

/-- `max(·, key=strptime)` returns an element of the list whose parsed
timestamp is not below any other element's. -/
theorem py_max_by_spec (key : String → Option (Nat × Nat × Nat × Nat × Nat))
    (l : List String) (m : String) (h : py_max_by key l = .ok m) :
    m ∈ l ∧ ∃ mk, key m = some mk ∧
      ∀ d ∈ l, ∃ kd, key d = some kd ∧ ts_lt mk kd = false := by
  cases l with
  | nil => simp [py_max_by] at h
  | cons x xs =>
    simp only [py_max_by] at h
    cases hx : key x with
    | none => rw [hx] at h; cases h
    | some k =>
      rw [hx] at h
      dsimp only at h
      obtain ⟨mk, hmk, hmem, hge, hall⟩ := py_max_loop_spec key xs x k m hx h
      refine ⟨?_, mk, hmk, ?_⟩
      · rcases hmem with rfl | hmem
        · exact List.mem_cons_self _ _
        · exact List.mem_cons_of_mem _ hmem
      · intro d hd
        rcases List.mem_cons.mp hd with rfl | hd
        · exact ⟨k, hx, hge⟩
        · exact hall d hd

/-- Every file written by the per-file loop lives directly inside
`results_dir` under one of the listed names. -/
theorem align_files_writes (env : AlignEnv) (results_dir : String) :
    ∀ (files : List String) (w : String × List (String × List String)),
      w ∈ (align_files env results_dir files).1 →
      ∃ f ∈ files, w.1 = pathJoin results_dir f := by
  intro files
  induction files with
  | nil => intro w hw; simp [align_files] at hw
  | cons file rest ih =>
    intro w hw
    simp only [align_files] at hw
    cases hval : env.readValCsv (val_csv_path ((pySplit '_' file).headD "")) with
    | none => rw [hval] at hw; simp at hw
    | some valRows =>
      rw [hval] at hw
      dsimp only at hw
      cases hsub : env.readSubCsv (pathJoin results_dir file) with
      | none => rw [hsub] at hw; simp at hw
      | some subRows =>
        rw [hsub] at hw
        dsimp only at hw
        cases hao : align_one valRows subRows with
        | written rows =>
          rw [hao] at hw
          dsimp only at hw
          rcases List.mem_cons.mp hw with rfl | hw
          · exact ⟨file, List.mem_cons_self _ _, rfl⟩
          · obtain ⟨f, hf, hp⟩ := ih w hw
            exact ⟨f, List.mem_cons_of_mem _ hf, hp⟩
        | aborted => rw [hao] at hw; simp at hw
        | crashed => rw [hao] at hw; simp at hw

/-- C9: the alignment script touches only `.csv` files inside the
`predictions` folder of the single newest submission directory — the
directory whose name parses to the greatest timestamp under
`%d-%m_%H-%M-%S`; every other file is untouched. -/
theorem align_script_writes_only_newest_predictions (env : AlignEnv)
    (writes : List (String × List (String × List String))) (err : Option PyErr)
    (hrun : align_script env = (writes, err)) :
    ∀ w ∈ writes, ∃ entries newest files file,
      env.submissionsListing = some entries ∧
      py_max_by parse_timestamp
        (entries.filter (fun d => env.isDir (pathJoin submissions_path d))) = .ok newest ∧
      newest ∈ entries.filter (fun d => env.isDir (pathJoin submissions_path d)) ∧
      (∀ d ∈ entries.filter (fun d => env.isDir (pathJoin submissions_path d)),
        ∃ kd kn, parse_timestamp d = some kd ∧ parse_timestamp newest = some kn ∧
          ts_lt kn kd = false) ∧
      env.listdir (pathJoin (pathJoin submissions_path newest) "predictions") = some files ∧
      file ∈ files ∧ pyEndsWith file ".csv" = true ∧
      w.1 = pathJoin (pathJoin (pathJoin submissions_path newest) "predictions") file := by
  intro w hw
  rw [align_script] at hrun
  cases hsl : env.submissionsListing with
  | none =>
    rw [hsl] at hrun
    cases hrun
    simp at hw
  | some entries =>
    rw [hsl] at hrun
    dsimp only at hrun
    cases hmax : py_max_by parse_timestamp
        (entries.filter (fun d => env.isDir (pathJoin submissions_path d))) with
    | error e =>
      rw [hmax] at hrun
      cases hrun
      simp at hw
    | ok newest =>
      rw [hmax] at hrun
      dsimp only at hrun
      cases hls : env.listdir (pathJoin (pathJoin submissions_path newest) "predictions") with
      | none =>
        rw [hls] at hrun
        cases hrun
        simp at hw
      | some files =>
        rw [hls] at hrun
        dsimp only at hrun
        obtain ⟨hmem, mk, hmk, hall⟩ := py_max_by_spec parse_timestamp _ newest hmax
        have hwrites : w ∈ (align_files env
            (pathJoin (pathJoin submissions_path newest) "predictions")
            (files.filter (fun f => pyEndsWith f ".csv"))).1 := by
          rw [hrun]
          exact hw
        obtain ⟨f, hf, hp⟩ := align_files_writes env _ _ w hwrites
        obtain ⟨hfmem, hfcsv⟩ := List.mem_filter.mp hf
        refine ⟨entries, newest, files, f, rfl, hmax, hmem, ?_, hls, hfmem, hfcsv, hp⟩
        intro d hd
        obtain ⟨kd, hkd, hge⟩ := hall d hd
        exact ⟨kd, mk, hkd, hmk, hge⟩

/-- A concrete environment with one submission directory and one prediction
file. -/
def env_c9 : AlignEnv where
  submissionsListing := some ["01-01_00-00-00"]
  isDir := fun _ => true
  listdir := fun d =>
    if d = "../submissions/01-01_00-00-00/predictions" then some ["colon_sub.csv"]
    else none
  readValCsv := fun p =>
    if p = "../data/MedFMC_val/colon/colon_val.csv" then some [(some "x", [])]
    else none
  readSubCsv := fun p =>
    if p = "../submissions/01-01_00-00-00/predictions/colon_sub.csv" then
      some [("x", ["0.7"])]
    else none

/-- Witness for `align_script_writes_only_newest_predictions` on `env_c9`. -/
theorem align_script_writes_witness :
    ∃ entries newest files file,
      env_c9.submissionsListing = some entries ∧
      py_max_by parse_timestamp
        (entries.filter (fun d => env_c9.isDir (pathJoin submissions_path d))) = .ok newest ∧
      newest ∈ entries.filter (fun d => env_c9.isDir (pathJoin submissions_path d)) ∧
      (∀ d ∈ entries.filter (fun d => env_c9.isDir (pathJoin submissions_path d)),
        ∃ kd kn, parse_timestamp d = some kd ∧ parse_timestamp newest = some kn ∧
          ts_lt kn kd = false) ∧
      env_c9.listdir (pathJoin (pathJoin submissions_path newest) "predictions") = some files ∧
      file ∈ files ∧ pyEndsWith file ".csv" = true ∧
      ("../submissions/01-01_00-00-00/predictions/colon_sub.csv" : String) =
        pathJoin (pathJoin (pathJoin submissions_path newest) "predictions") file :=
  align_script_writes_only_newest_predictions env_c9 _ _ rfl
    ("../submissions/01-01_00-00-00/predictions/colon_sub.csv", [("x", ["0.7"])])
    (by decide)

/-- The model list a combination's worker computes (meaningful when the
worker neither raises nor returns `None`). -/
def model_list_of (fs : FS) (c : String × String) : List String :=
  match get_model_dirs_without_prediction fs c.1 c.2 with
  | .ok (some l) => l
  | _ => []

/-- When every worker succeeds with a list, the worker phase returns the
per-combination results in arrival order. -/
theorem run_workers_ok (fs : FS) :
    ∀ (order : List (String × String)),
      (∀ c ∈ order,
        get_model_dirs_without_prediction fs c.1 c.2 = .ok (some (model_list_of fs c))) →
      run_workers fs order =
        .ok (order.map (fun c => (c.1, c.2, some (model_list_of fs c)))) := by
  intro order
  induction order with
  | nil => intro _; rfl
  | cons c rest ih =>
    intro h
    have hc := h c (List.mem_cons_self c rest)
    have hrest := ih (fun x hx => h x (List.mem_cons_of_mem c hx))
    simp only [run_workers, hc, hrest, List.map_cons]

/-- Inserting fresh model names appends them in order. -/
theorem aggregate_one_append (task shot : String) :
    ∀ (names : List String) (acc : ModelDict),
      (acc.map Prod.fst ++ names).Nodup →
      aggregate_one acc task shot names =
        acc ++ names.map (fun n => (n, model_info_of task shot n)) := by
  intro names
  induction names with
  | nil => intro acc _; simp [aggregate_one]
  | cons n ns ih =>
    intro acc hnd
    have hnotin : n ∉ acc.map Prod.fst := by
      intro hmem
      have := List.disjoint_of_nodup_append hnd
      exact this hmem (List.mem_cons_self n ns)
    have hfresh : acc.any (fun p => p.1 = n) = false := by
      rw [List.any_eq_false]
      intro p hp hpn
      exact hnotin (by
        have : p.1 = n := by simpa using hpn
        exact this ▸ List.mem_map_of_mem Prod.fst hp)
    have hinsert : dict_insert acc n (model_info_of task shot n) =
        acc ++ [(n, model_info_of task shot n)] := by
      rw [dict_insert, if_neg (by simp [hfresh])]
      rfl
    have hnd' : ((acc ++ [(n, model_info_of task shot n)]).map Prod.fst ++ ns).Nodup := by
      rw [List.map_append]
      simp only [List.map_cons, List.map_nil]
      have : acc.map Prod.fst ++ [n] ++ ns = acc.map Prod.fst ++ n :: ns := by
        rw [List.append_assoc]
        rfl
      rw [this]
      exact hnd
    calc aggregate_one acc task shot (n :: ns)
        = aggregate_one (acc ++ [(n, model_info_of task shot n)]) task shot ns := by
          simp only [aggregate_one, List.foldl_cons, hinsert]
      _ = acc ++ [(n, model_info_of task shot n)] ++
            ns.map (fun m => (m, model_info_of task shot m)) := ih _ hnd'
      _ = acc ++ (n :: ns).map (fun m => (m, model_info_of task shot m)) := by
          rw [List.append_assoc]
          rfl

/-- With globally distinct model names, the aggregation dictionary is the
plain concatenation of the per-combination entries in arrival order. -/
theorem aggregate_results_append (fs : FS) :
    ∀ (order : List (String × String)) (acc : ModelDict),
      (acc.map Prod.fst ++ order.flatMap (fun c => model_list_of fs c)).Nodup →
      aggregate_results acc (order.map (fun c => (c.1, c.2, some (model_list_of fs c)))) =
        .ok (acc ++ order.flatMap (fun c =>
          (model_list_of fs c).map (fun n => (n, model_info_of c.1 c.2 n)))) := by
  intro order
  induction order with
  | nil => intro acc _; simp [aggregate_results]
  | cons c rest ih =>
    intro acc hnd
    rw [List.flatMap_cons] at hnd
    simp only [List.map_cons, aggregate_results, List.flatMap_cons]
    have hnd1 : (acc.map Prod.fst ++ model_list_of fs c).Nodup := by
      have hsub : (acc.map Prod.fst ++ model_list_of fs c).Sublist
          (acc.map Prod.fst ++ (model_list_of fs c ++ rest.flatMap (fun x => model_list_of fs x))) :=
        List.Sublist.append_left (List.sublist_append_left _ _) _
      exact List.Nodup.sublist hsub hnd
    rw [aggregate_one_append c.1 c.2 (model_list_of fs c) acc hnd1]
    have hnd2 : ((acc ++ (model_list_of fs c).map (fun n => (n, model_info_of c.1 c.2 n))).map
        Prod.fst ++ rest.flatMap (fun x => model_list_of fs x)).Nodup := by
      rw [List.map_append, List.map_map]
      have hfst : ((fun p : String × ModelInfo => p.1) ∘
          (fun n => (n, model_info_of c.1 c.2 n))) = id := rfl
      rw [hfst, List.map_id, List.append_assoc]
      exact hnd
    rw [ih _ hnd2]
    rw [List.append_assoc]

/-- `sort_key_le` unfolded to the lexicographic proposition. -/
theorem sort_key_le_iff (a b : String × Nat × Nat) :
    sort_key_le a b = true ↔
      a.1 < b.1 ∨ (a.1 = b.1 ∧ (a.2.1 < b.2.1 ∨ (a.2.1 = b.2.1 ∧ a.2.2 ≤ b.2.2))) := by
  simp [sort_key_le]

/-- `sort_key_le` is transitive. -/
theorem sort_key_le_trans {a b c : String × Nat × Nat}
    (h1 : sort_key_le a b = true) (h2 : sort_key_le b c = true) :
    sort_key_le a c = true := by
  rw [sort_key_le_iff] at h1 h2 ⊢
  rcases h1 with h1 | ⟨e1, h1⟩ <;> rcases h2 with h2 | ⟨e2, h2⟩
  · exact Or.inl (lt_trans h1 h2)
  · exact Or.inl (e2 ▸ h1)
  · exact Or.inl (e1 ▸ h2)
  · exact Or.inr ⟨e1.trans e2, by omega⟩

/-- `sort_key_le` is total. -/
theorem sort_key_le_total (a b : String × Nat × Nat) :
    sort_key_le a b = true ∨ sort_key_le b a = true := by
  rw [sort_key_le_iff, sort_key_le_iff]
  rcases lt_trichotomy a.1 b.1 with h | h | h
  · exact Or.inl (Or.inl h)
  · rcases Nat.lt_trichotomy a.2.1 b.2.1 with h2 | h2 | h2
    · exact Or.inl (Or.inr ⟨h, Or.inl h2⟩)
    · rcases Nat.le_total a.2.2 b.2.2 with h3 | h3
      · exact Or.inl (Or.inr ⟨h, Or.inr ⟨h2, h3⟩⟩)
      · exact Or.inr (Or.inr ⟨h.symm, Or.inr ⟨h2.symm, h3⟩⟩)
    · exact Or.inr (Or.inr ⟨h.symm, Or.inl h2⟩)
  · exact Or.inr (Or.inl h)

/-- `entry_le` is transitive. -/
theorem entry_le_trans : ∀ a b c : String, entry_le a b → entry_le b c → entry_le a c :=
  fun _ _ _ h1 h2 => sort_key_le_trans h1 h2

/-- `entry_le` is total. -/
theorem entry_le_total : ∀ a b : String, entry_le a b || entry_le b a := by
  intro a b
  rw [Bool.or_eq_true]
  exact sort_key_le_total (sort_key a) (sort_key b)

/-- Two distinct members of a list occur in one of the two relative orders. -/
theorem pair_sublist_of_mem {α : Type} (a b : α) (l : List α)
    (ha : a ∈ l) (hb : b ∈ l) (hne : a ≠ b) :
    [a, b].Sublist l ∨ [b, a].Sublist l := by
  induction l with
  | nil => simp at ha
  | cons x xs ih =>
    rcases List.mem_cons.mp ha with rfl | ha'
    · have hb' : b ∈ xs := by
        rcases List.mem_cons.mp hb with h | h
        · exact absurd h.symm hne
        · exact h
      exact Or.inl ((List.singleton_sublist.mpr hb').cons₂ a)
    · rcases List.mem_cons.mp hb with rfl | hb'
      · exact Or.inr ((List.singleton_sublist.mpr ha').cons₂ b)
      · rcases ih ha' hb' with h | h
        · exact Or.inl (h.cons x)
        · exact Or.inr (h.cons x)

/-- In a duplicate-free list, a pair cannot occur in both relative orders. -/
theorem not_pair_sublist_both {α : Type} (a b : α) (l : List α)
    (hnd : l.Nodup) (hne : a ≠ b)
    (h1 : [a, b].Sublist l) (h2 : [b, a].Sublist l) : False := by
  induction l with
  | nil => simp at h1
  | cons x xs ih =>
    cases h1 with
    | cons _ h1' =>
      cases h2 with
      | cons _ h2' => exact ih (List.nodup_cons.mp hnd).2 h1' h2'
      | cons₂ h2' =>
        exact (List.nodup_cons.mp hnd).1 (h1'.subset (by simp))
    | cons₂ h1' =>
      cases h2 with
      | cons _ h2' =>
        exact (List.nodup_cons.mp hnd).1 (h2'.subset (by simp))
      | cons₂ h2' => exact hne rfl

/-- Two sorted, duplicate-free permutations of each other that order every
tied pair the same way are equal. -/
theorem sorted_eq_of_tie_compat {α : Type} (le : α → α → Bool) :
    ∀ (l₁ l₂ : List α), l₁.Perm l₂ →
      l₁.Pairwise (fun a b => le a b = true) →
      l₂.Pairwise (fun a b => le a b = true) →
      l₁.Nodup →
      (∀ a b, a ≠ b → le a b = true → le b a = true →
        [a, b].Sublist l₁ → [a, b].Sublist l₂) →
      l₁ = l₂ := by
  intro l₁
  induction l₁ with
  | nil =>
    intro l₂ hp _ _ _ _
    rw [hp.symm.eq_nil]
  | cons a t₁ ih =>
    intro l₂ hp hs₁ hs₂ hnd htie
    cases l₂ with
    | nil => exact absurd hp.eq_nil (by simp)
    | cons b t₂ =>
      by_cases hab : a = b
      · subst hab
        congr 1
        refine ih t₂ hp.cons_inv (List.pairwise_cons.mp hs₁).2
          (List.pairwise_cons.mp hs₂).2 (List.nodup_cons.mp hnd).2 ?_
        intro x y hxy hle1 hle2 hsub
        have hx : x ∈ t₁ := hsub.subset (by simp)
        have h2 := htie x y hxy hle1 hle2 (hsub.cons a)
        cases h2 with
        | cons _ h2' => exact h2'
        | cons₂ h2' => exact absurd hx (List.nodup_cons.mp hnd).1
      · exfalso
        have hbmem : b ∈ t₁ := by
          have hm : b ∈ a :: t₁ := hp.mem_iff.mpr (List.mem_cons_self b t₂)
          rcases List.mem_cons.mp hm with h | h
          · exact absurd h.symm hab
          · exact h
        have hamem : a ∈ t₂ := by
          have hm : a ∈ b :: t₂ := hp.mem_iff.mp (List.mem_cons_self a t₁)
          rcases List.mem_cons.mp hm with h | h
          · exact absurd h hab
          · exact h
        have hle_ab : le a b = true := (List.pairwise_cons.mp hs₁).1 b hbmem
        have hle_ba : le b a = true := (List.pairwise_cons.mp hs₂).1 a hamem
        have hsub1 : [a, b].Sublist (a :: t₁) := (List.singleton_sublist.mpr hbmem).cons₂ a
        have h2 := htie a b hab hle_ab hle_ba hsub1
        have hndl₂ : (b :: t₂).Nodup := hp.nodup hnd
        cases h2 with
        | cons _ h2' =>
          exact (List.nodup_cons.mp hndl₂).1 (h2'.subset (by simp))
        | cons₂ h2' => exact hab rfl

/-- Merge sorts of two permuted inputs agree when every tied pair that
occurs in the first input in one order occurs in the second input in the
same order (stability pins the rest). -/
theorem mergeSort_eq_of_tie_stable {α : Type} (le : α → α → Bool)
    (htrans : ∀ a b c : α, le a b → le b c → le a c)
    (htotal : ∀ a b : α, le a b || le b a)
    (p₁ p₂ : List α) (hp : p₁.Perm p₂) (hnd : p₁.Nodup)
    (htie : ∀ a b, a ≠ b → le a b = true → le b a = true →
      [a, b].Sublist p₁ → [a, b].Sublist p₂) :
    p₁.mergeSort le = p₂.mergeSort le := by
  refine sorted_eq_of_tie_compat le _ _
    (((List.mergeSort_perm p₁ le).trans hp).trans (List.mergeSort_perm p₂ le).symm)
    (List.sorted_mergeSort htrans htotal p₁)
    (List.sorted_mergeSort htrans htotal p₂)
    ((List.mergeSort_perm p₁ le).symm.nodup hnd) ?_
  intro a b hne hle1 hle2 hsubsorted
  have ha : a ∈ p₁ := List.mem_mergeSort.mp (hsubsorted.subset (by simp))
  have hb : b ∈ p₁ := List.mem_mergeSort.mp (hsubsorted.subset (by simp))
  rcases pair_sublist_of_mem a b p₁ ha hb hne with h | h
  · exact List.pair_sublist_mergeSort htrans htotal hle1 (htie a b hne hle1 hle2 h)
  · exfalso
    have hba : [b, a].Sublist (p₁.mergeSort le) :=
      List.pair_sublist_mergeSort htrans htotal hle2 h
    exact not_pair_sublist_both a b (p₁.mergeSort le)
      ((List.mergeSort_perm p₁ le).symm.nodup hnd) hne hsubsorted hba

/-- `os.path.join` in the common case: relative second component, non-empty
first component without a trailing slash. -/
theorem pathJoin_of_ne (a n : String) (hn : pyStartsWith n "/" = false)
    (ha : ¬ a = "") (hae : pyEndsWith a "/" = false) :
    pathJoin a n = a ++ "/" ++ n := by
  rw [pathJoin, if_neg (by simp [hn]), if_neg ha, if_neg (by simp [hae])]

/-- A model path under a real task/shot combination is the setting directory,
a slash, and the (relative) model name. -/
theorem model_path_eq (t s n : String) (ht : (t, s) ∈ combinations)
    (hn : pyStartsWith n "/" = false) :
    model_path_of t s n = setting_directory t s ++ "/" ++ n := by
  have h0 : model_path_of t s n = pathJoin (setting_directory t s) n := rfl
  rw [h0]
  fin_cases ht <;> exact pathJoin_of_ne _ _ hn (by decide) (by decide)

/-- Within one combination, distinct model names give distinct paths. -/
theorem model_path_inj (t s : String) (ht : (t, s) ∈ combinations)
    {n₁ n₂ : String} (h1 : pyStartsWith n₁ "/" = false)
    (h2 : pyStartsWith n₂ "/" = false)
    (h : model_path_of t s n₁ = model_path_of t s n₂) : n₁ = n₂ := by
  rw [model_path_eq t s n₁ ht h1, model_path_eq t s n₂ ht h2] at h
  have hd := congrArg String.data h
  simp only [String.data_append] at hd
  exact congrArg String.mk (List.append_cancel_left hd)

/-- Splitting on `/` distributes over a `++ "/" ++` junction. -/
theorem pySplit_append_slash (a n : String) :
    pySplit '/' (a ++ "/" ++ n) = pySplit '/' a ++ pySplit '/' n := by
  rw [pySplit, pySplit, pySplit]
  have hdata : ((a ++ "/") ++ n).data = a.data ++ '/' :: n.data := by
    simp [String.data_append, List.append_assoc]
  rw [hdata, splitChar_append, List.map_append]

/-- The first two `sort_key` components of a model path under a real
combination are the task and the numeric shot. -/
theorem sort_key_model_path (t s n : String) (ht : (t, s) ∈ combinations)
    (hn : pyStartsWith n "/" = false) :
    (sort_key (model_path_of t s n)).1 = t ∧
    (sort_key (model_path_of t s n)).2.1 = (pyInt? s).getD 0 := by
  rw [model_path_eq t s n ht hn]
  fin_cases ht <;>
    (rw [sort_key, pySplit_append_slash]; exact ⟨rfl, rfl⟩)

/-- Tied `sort_key`s agree on task and shot. -/
theorem sort_key_le_antisymm {k1 k2 : String × Nat × Nat}
    (h1 : sort_key_le k1 k2 = true) (h2 : sort_key_le k2 k1 = true) :
    k1.1 = k2.1 ∧ k1.2.1 = k2.2.1 := by
  rw [sort_key_le_iff] at h1 h2
  rcases h1 with h1 | ⟨e1, h1⟩ <;> rcases h2 with h2 | ⟨e2, h2⟩
  · exact absurd h2 (lt_asymm h1)
  · exact absurd (e2 ▸ h1) (lt_irrefl _)
  · exact absurd (e1 ▸ h2) (lt_irrefl _)
  · exact ⟨e1, by omega⟩

/-- The nine combinations are distinct. -/
theorem combinations_nodup : combinations.Nodup := by decide

/-- A combination is determined by its task and numeric shot. -/
theorem combo_key_inj : ∀ c ∈ combinations, ∀ c' ∈ combinations,
    c.1 = c'.1 → (pyInt? c.2).getD 0 = (pyInt? c'.2).getD 0 → c = c' := by decide

deriving instance DecidableEq for Except

/-- The report paths contributed by one combination. -/
def block_paths (fs : FS) (c : String × String) : List String :=
  (model_list_of fs c).map (fun n => model_path_of c.1 c.2 n)

/-- A member's image block is a sublist of the flat map. -/
theorem flatMap_block_sublist {β : Type} (f : (String × String) → List β)
    (c : String × String) (l : List (String × String)) (hc : c ∈ l) :
    (f c).Sublist (l.flatMap f) := by
  obtain ⟨s, t, rfl⟩ := List.append_of_mem hc
  rw [List.flatMap_append, List.flatMap_cons]
  exact List.sublist_append_of_sublist_right (List.sublist_append_left (f c) (t.flatMap f))

/-- With globally distinct model names (and relative names), the report paths
over all combinations are distinct. -/
theorem paths_nodup (fs : FS)
    (hnd : (combinations.flatMap (fun c => model_list_of fs c)).Nodup)
    (hslash : ∀ c ∈ combinations, ∀ n ∈ model_list_of fs c, pyStartsWith n "/" = false) :
    (combinations.flatMap (block_paths fs)).Nodup := by
  rw [List.nodup_flatMap]
  constructor
  · intro c hc
    have hbl : (model_list_of fs c).Nodup :=
      hnd.sublist (flatMap_block_sublist (fun c => model_list_of fs c) c combinations hc)
    exact List.Nodup.map_on
      (fun n₁ h₁ n₂ h₂ heq =>
        model_path_inj c.1 c.2 hc (hslash c hc n₁ h₁) (hslash c hc n₂ h₂) heq)
      hbl
  · refine List.Pairwise.imp_of_mem ?_ combinations_nodup
    intro c c' hc hc' hne x hx hx'
    obtain ⟨n, hn, hxe⟩ := List.mem_map.mp hx
    obtain ⟨n', hn', heq⟩ := List.mem_map.mp hx'
    rw [← hxe] at heq
    have k1 := sort_key_model_path c.1 c.2 n hc (hslash c hc n hn)
    have k2 := sort_key_model_path c'.1 c'.2 n' hc' (hslash c' hc' n' hn')
    rw [heq] at k2
    have hcc : c = c' :=
      combo_key_inj c hc c' hc' (k1.1.symm.trans k2.1) (k1.2.symm.trans k2.2)
    exact hne hcc

/-- C8 (amended): the printed report is independent of the order in which
`imap_unordered` delivers the per-combination results, provided every
combination's scan succeeds with a list, the reported model names are
globally distinct across combinations, and the names are relative paths.
(When a model name occurs in two combinations the dictionary entry is
overwritten by whichever combination arrives last, and the report can
differ between runs.) -/
theorem run_scan_order_independent (fs : FS) (order : List (String × String))
    (hperm : order.Perm combinations)
    (hok : ∀ c ∈ combinations,
      get_model_dirs_without_prediction fs c.1 c.2 = .ok (some (model_list_of fs c)))
    (hnd : (combinations.flatMap (fun c => model_list_of fs c)).Nodup)
    (hslash : ∀ c ∈ combinations, ∀ n ∈ model_list_of fs c,
      pyStartsWith n "/" = false) :
    run_scan fs order = run_scan fs combinations := by
  have hok' : ∀ c ∈ order,
      get_model_dirs_without_prediction fs c.1 c.2 = .ok (some (model_list_of fs c)) :=
    fun c hc => hok c (hperm.subset hc)
  have hnd_order : (order.flatMap (fun c => model_list_of fs c)).Nodup :=
    ((hperm.flatMap_right (fun c => model_list_of fs c)).symm).nodup hnd
  have hndP₂ : (combinations.flatMap (block_paths fs)).Nodup := paths_nodup fs hnd hslash
  have hndP₁ : (order.flatMap (block_paths fs)).Nodup :=
    ((hperm.flatMap_right (block_paths fs)).symm).nodup hndP₂
  have hms : List.mergeSort (order.flatMap (block_paths fs)) entry_le =
      List.mergeSort (combinations.flatMap (block_paths fs)) entry_le := by
    refine mergeSort_eq_of_tie_stable entry_le entry_le_trans entry_le_total _ _
      (hperm.flatMap_right (block_paths fs)) hndP₁ ?_
    intro a b hne hab hba hsub
    have ha : a ∈ order.flatMap (block_paths fs) := hsub.subset (by simp)
    have hb : b ∈ order.flatMap (block_paths fs) := hsub.subset (by simp)
    obtain ⟨ca, hca_ord, hca⟩ := List.mem_flatMap.mp ha
    obtain ⟨cb, hcb_ord, hcb⟩ := List.mem_flatMap.mp hb
    have hca_comb : ca ∈ combinations := hperm.subset hca_ord
    have hcb_comb : cb ∈ combinations := hperm.subset hcb_ord
    obtain ⟨na, hna, hae⟩ := List.mem_map.mp hca
    obtain ⟨nb, hnb, hbe⟩ := List.mem_map.mp hcb
    have k1 := sort_key_model_path ca.1 ca.2 na hca_comb (hslash ca hca_comb na hna)
    have k2 := sort_key_model_path cb.1 cb.2 nb hcb_comb (hslash cb hcb_comb nb hnb)
    rw [hae] at k1
    rw [hbe] at k2
    obtain ⟨he1, he2⟩ := sort_key_le_antisymm hab hba
    have hcc : ca = cb := combo_key_inj ca hca_comb cb hcb_comb
      (k1.1.symm.trans (he1.trans k2.1)) (k1.2.symm.trans (he2.trans k2.2))
    subst hcc
    rcases pair_sublist_of_mem a b (block_paths fs ca) hca hcb hne with h | h
    · exact h.trans (flatMap_block_sublist (block_paths fs) ca combinations hca_comb)
    · exfalso
      have hba' : [b, a].Sublist (order.flatMap (block_paths fs)) :=
        h.trans (flatMap_block_sublist (block_paths fs) ca order hca_ord)
      exact not_pair_sublist_both a b _ hndP₁ hne hsub hba'
  have hpaths : ∀ (l : List (String × String)),
      (l.flatMap (fun c => (model_list_of fs c).map
          (fun n => (n, model_info_of c.1 c.2 n)))).map (fun p => p.2.path) =
        l.flatMap (block_paths fs) := by
    intro l
    rw [List.map_flatMap]
    refine List.flatMap_congr ?_
    intro c _
    rw [List.map_map]
    rfl
  rw [run_scan, run_scan, run_workers_ok fs order hok', run_workers_ok fs combinations hok]
  dsimp only
  rw [aggregate_results_append fs order [] (by simpa using hnd_order),
    aggregate_results_append fs combinations [] (by simpa using hnd)]
  dsimp only
  simp only [List.nil_append]
  simp only [print_report_lines]
  rw [hpaths order, hpaths combinations, hms]

/-- A filesystem whose model directory name `m` occurs both under
`colon/1-shot` and under `chest/1-shot` (both complete, both missing their
prediction CSV). -/
def fs_c8 : FS where
  listdir := fun d =>
    if d = "/scratch/medfm/medfm-challenge/work_dirs/colon/1-shot" then some ["m"]
    else if d = "/scratch/medfm/medfm-challenge/work_dirs/chest/1-shot" then some ["m"]
    else if d = "/scratch/medfm/medfm-challenge/work_dirs/colon/1-shot/m" then
      some ["best.pth", "vd"]
    else if d = "/scratch/medfm/medfm-challenge/work_dirs/chest/1-shot/m" then
      some ["best.pth", "vd"]
    else if d = "/scratch/medfm/medfm-challenge/work_dirs/colon/1-shot/m/vd/vis_data" then
      some ["ev"]
    else if d = "/scratch/medfm/medfm-challenge/work_dirs/chest/1-shot/m/vd/vis_data" then
      some ["ev"]
    else if pyEndsWith d "-shot" then some []
    else none
  isDir := fun d =>
    d = "/scratch/medfm/medfm-challenge/work_dirs/colon/1-shot/m/vd" ||
    d = "/scratch/medfm/medfm-challenge/work_dirs/chest/1-shot/m/vd"
  pathExists := fun _ => false
  scalarTags := fun _ => ["multi-label/mAP"]

/-- Sorting a one-element list is the identity. -/
theorem mergeSort_one {α : Type} (le : α → α → Bool) (a : α) :
    List.mergeSort [a] le = [a] :=
  List.perm_singleton.mp (List.mergeSort_perm [a] le)

/-- The report printed from a one-entry dictionary. -/
theorem print_report_lines_singleton (p : String × ModelInfo) :
    print_report_lines [p] = ["\n" ++ report_rule,
      "| Valid Models without an existing prediction CSV file:",
      report_rule, p.2.path, report_rule] := by
  rw [print_report_lines]
  dsimp only [List.map]
  rw [mergeSort_one]
  rfl

/-- C8 counterexample: with the duplicated model name `m`, two runs that
differ only in the arrival order of the per-combination results both succeed
but print different reports — the surviving dictionary entry (and hence the
printed path) is the one written last. -/
theorem run_scan_order_dependent_counterexample :
    List.Perm combinations.reverse combinations ∧
    (run_scan fs_c8 combinations).toOption.isSome = true ∧
    (run_scan fs_c8 combinations.reverse).toOption.isSome = true ∧
    run_scan fs_c8 combinations ≠ run_scan fs_c8 combinations.reverse := by
  have h1 : run_scan fs_c8 combinations =
      .ok (print_report_lines [("m", model_info_of "chest" "1" "m")]) := rfl
  have h2 : run_scan fs_c8 combinations.reverse =
      .ok (print_report_lines [("m", model_info_of "colon" "1" "m")]) := rfl
  refine ⟨List.reverse_perm combinations, ?_, ?_, ?_⟩
  · rw [h1]; rfl
  · rw [h2]; rfl
  · rw [h1, h2, print_report_lines_singleton, print_report_lines_singleton]
    decide

/-- Like `fs_c8` but with distinct model names `m1` and `m2`. -/
def fs_c8_distinct : FS where
  listdir := fun d =>
    if d = "/scratch/medfm/medfm-challenge/work_dirs/colon/1-shot" then some ["m1"]
    else if d = "/scratch/medfm/medfm-challenge/work_dirs/chest/1-shot" then some ["m2"]
    else if d = "/scratch/medfm/medfm-challenge/work_dirs/colon/1-shot/m1" then
      some ["best.pth", "vd"]
    else if d = "/scratch/medfm/medfm-challenge/work_dirs/chest/1-shot/m2" then
      some ["best.pth", "vd"]
    else if d = "/scratch/medfm/medfm-challenge/work_dirs/colon/1-shot/m1/vd/vis_data" then
      some ["ev"]
    else if d = "/scratch/medfm/medfm-challenge/work_dirs/chest/1-shot/m2/vd/vis_data" then
      some ["ev"]
    else if pyEndsWith d "-shot" then some []
    else none
  isDir := fun d =>
    d = "/scratch/medfm/medfm-challenge/work_dirs/colon/1-shot/m1/vd" ||
    d = "/scratch/medfm/medfm-challenge/work_dirs/chest/1-shot/m2/vd"
  pathExists := fun _ => false
  scalarTags := fun _ => ["multi-label/mAP"]

/-- Witness for `run_scan_order_independent`: with distinct names the
reversed arrival order prints the same report. -/
theorem run_scan_order_independent_witness :
    run_scan fs_c8_distinct combinations.reverse = run_scan fs_c8_distinct combinations :=
  run_scan_order_independent fs_c8_distinct combinations.reverse
    (List.reverse_perm combinations) (by decide) (by decide) (by decide)
